import Mathlib

/-!
Verification development for the request-fan-out core of an RTB auction
server (package `exchange`, file `exchange/utils.go`, plus the generic
adapter `adapters/generic/generic.go`).

The Go code is shallowly embedded: JSON documents are modelled by the
inductive `Json`; Go `json.RawMessage` byte slices are modelled by
`RawMessage`, which is either a parsed JSON document (`valid`) or a byte
blob that does not parse (`invalid`); Go maps built by `encoding/json`
are modelled as association lists with unique keys (`dedupKeys`, keeping
the last value for a duplicate JSON key, as `encoding/json` does).
Fallible Go functions return `Option`/`Except`; functions that mutate an
argument through a pointer instead return the updated value.

Go's `encoding/json` writes map keys in sorted order; the model keeps
the construction order of each field list instead. No statement below
compares two objects whose field order differs, so this does not affect
any claim.
-/

inductive Json where
  | null
  | bool (b : Bool)
  | num (n : Int)
  | str (s : String)
  | arr (elems : List Json)
  | obj (fields : List (String × Json))

/-- Model of Go `json.RawMessage`: either bytes that parse as a JSON
document, or bytes that do not (`invalid`). A `nil`/empty slice is
modelled as `Option.none` at each use site. -/
inductive RawMessage where
  | valid (j : Json)
  | invalid (tag : String)

/-- Association-list lookup, modelling Go map indexing `m[k]` for maps
whose keys are unique. -/
def alookup {α : Type} : List (String × α) → String → Option α
  | [], _ => none
  | (k, v) :: rest, key => if k = key then some v else alookup rest key

/-- Replace the value stored at a key, or append the binding; models a
Go map assignment `m[k] = v`. -/
def upsertField {α : Type} : List (String × α) → String → α → List (String × α)
  | [], k, v => [(k, v)]
  | (k0, v0) :: rest, k, v =>
      if k0 = k then (k, v) :: rest else (k0, v0) :: upsertField rest k v

/-- Collapse duplicate keys, keeping the last value for each key, as Go
`encoding/json` does when decoding an object into a map. -/
def dedupKeys {α : Type} (l : List (String × α)) : List (String × α) :=
  l.foldl (fun acc kv => upsertField acc kv.1 kv.2) []

/-- Remove every binding of a key; models Go `delete(m, k)` (maps have
unique keys, so at most one binding is removed). -/
def eraseField {α : Type} : List (String × α) → String → List (String × α)
  | [], _ => []
  | (k0, v0) :: rest, k =>
      if k0 = k then eraseField rest k else (k0, v0) :: eraseField rest k

/-- Decode of a JSON object's fields into raw sub-messages; every value
decoded out of a well-formed document is itself well-formed. -/
def jsonFieldsToRaw (fs : List (String × Json)) : List (String × RawMessage) :=
  dedupKeys (fs.map (fun kv => (kv.1, RawMessage.valid kv.2)))

/-- Model of `json.Unmarshal(raw, &m)` for `m : map[string]json.RawMessage`:
succeeds on an object (fields become raw sub-messages) and on `null`
(map left nil, i.e. empty); fails otherwise. -/
def unmarshalObjMap : RawMessage → Option (List (String × RawMessage))
  | .invalid _ => none
  | .valid .null => some []
  | .valid (.obj fs) => some (jsonFieldsToRaw fs)
  | .valid _ => none

/-- Model of `json.Marshal` of a `map[string]json.RawMessage`: fails if
any stored raw message is invalid bytes (Go compacts each raw message and
reports an error on malformed JSON). -/
def rawFieldsToJson : List (String × RawMessage) → Option (List (String × Json))
  | [] => some []
  | (k, .valid j) :: rest => (rawFieldsToJson rest).map (fun fs => (k, j) :: fs)
  | (_, .invalid _) :: _ => none

def marshalObjMap (l : List (String × RawMessage)) : Option RawMessage :=
  (rawFieldsToJson l).map (fun fs => RawMessage.valid (Json.obj fs))

/-- Errors produced by the exchange pipeline (`[]error` values in Go). -/
inductive Err where
  | impExtDecode (idx : Nat)
  | marshalFailure
  | userExtDecode
  | duplicateSChain (bidder : String)

/-- Presence model of `openrtb.Banner` / `openrtb.Video` sub-objects
(only nil-ness is inspected by the embedded code). -/
structure Imp where
  id : String
  banner : Option Unit
  video : Option Unit
  ext : Option RawMessage

/-- Decode of one impression's `Ext` field (utils.go parseImpExts body,
line 377): `json.Unmarshal` of a nil or empty slice fails. -/
def decodeImpExt (imp : Imp) : Option (List (String × RawMessage)) :=
  match imp.ext with
  | none => none
  | some rm => unmarshalObjMap rm

/-- Loop of `parseImpExts` (utils.go:372-383) carrying the index used in
the error message "Error unpacking extensions for Imp[i]". -/
def parseImpExtsFrom (n : Nat) : List Imp → Except Err (List (List (String × RawMessage)))
  | [] => .ok []
  | imp :: rest =>
      match decodeImpExt imp with
      | none => .error (Err.impExtDecode n)
      | some m => (parseImpExtsFrom (n + 1) rest).map (fun ms => m :: ms)

/-- `parseImpExts` (utils.go:372-383): partial-unmarshal of every
`imp[].Ext`; the first undecodable impression fails the whole batch. -/
def parseImpExts (imps : List Imp) : Except Err (List (List (String × RawMessage))) :=
  parseImpExtsFrom 0 imps

/-- Lines 276-290 of `sanitizedImpCopy`: decode the raw `"prebid"` block
as a map, and if it has a `"bidder"` field, delete that field and
re-marshal. On a marshal failure Go assigns the `nil` result to
`rawPrebidExt` and records the error. -/
def stripPrebid (rawPrebidExt : Option RawMessage) : Option RawMessage × List Err :=
  match rawPrebidExt with
  | none => (none, [])
  | some rp =>
      match unmarshalObjMap rp with
      | none => (some rp, [])
      | some prebidExt =>
          if (alookup prebidExt "bidder").isSome then
            match marshalObjMap (eraseField prebidExt "bidder") with
            | some newRaw => (some newRaw, [])
            | none => (none, [Err.marshalFailure])
          else (some rp, [])

/-- Lines 297-310 of `sanitizedImpCopy`: the new extension object of one
bidder's copy, holding the bidder's payload under `"bidder"`, the
(already stripped) `"prebid"` block when non-nil, and the `"context"`
block when present. -/
def mkBidderExt (ext : RawMessage) (rawPrebidExt : Option RawMessage)
    (firstPartyDataContext : Option RawMessage) : Option RawMessage :=
  let newExt := [("bidder", ext)]
  let newExt := match rawPrebidExt with
    | some rp => newExt ++ [("prebid", rp)]
    | none => newExt
  let newExt := match firstPartyDataContext with
    | some c => newExt ++ [("context", c)]
    | none => newExt
  marshalObjMap newExt

/-- Models `(*out)[bidder] = append(otherImps, impCopy)` at
utils.go:318-319. -/
def appendImp (out : List (String × List Imp)) (bidder : String) (impCopy : Imp) :
    List (String × List Imp) :=
  upsertField out bidder (((alookup out bidder).getD []) ++ [impCopy])

/-- Loop over `bidderExts` in `sanitizedImpCopy` (utils.go:292-320):
skip the shared `"prebid"`/`"context"` keys, build each bidder's copy,
and either record a marshal error or append the copy to the output map. -/
def sanitizedLoop (imp : Imp) (rawPrebidExt firstPartyDataContext : Option RawMessage) :
    List (String × RawMessage) → List (String × List Imp) × List Err →
    List (String × List Imp) × List Err
  | [], acc => acc
  | (bidder, ext) :: rest, (out, errs) =>
      if bidder = "prebid" ∨ bidder = "context" then
        sanitizedLoop imp rawPrebidExt firstPartyDataContext rest (out, errs)
      else
        match mkBidderExt ext rawPrebidExt firstPartyDataContext with
        | none =>
            sanitizedLoop imp rawPrebidExt firstPartyDataContext rest
              (out, errs ++ [Err.marshalFailure])
        | some rawExt =>
            sanitizedLoop imp rawPrebidExt firstPartyDataContext rest
              (appendImp out bidder { imp with ext := some rawExt }, errs)

/-- `sanitizedImpCopy` (utils.go:270-327): returns the updated output
map together with the errors the Go function returns (the output map is
an in-out pointer argument in Go). -/
def sanitizedImpCopy (imp : Imp) (bidderExts : List (String × RawMessage))
    (rawPrebidExt firstPartyDataContext : Option RawMessage)
    (out : List (String × List Imp)) : List (String × List Imp) × List Err :=
  let stripped := stripPrebid rawPrebidExt
  sanitizedLoop imp stripped.1 firstPartyDataContext bidderExts (out, stripped.2)

/-- Modelled from the spec: `openrtb_ext.ExtImpPrebid` lives outside
`src/`; per the spec the shared `"prebid"` block may declare an explicit
per-bidder parameter set under its `"bidder"` field. Decoding (line 250
of utils.go) yields that set when the block is an object whose
`"bidder"` field is an object; a missing or `null` `"bidder"` field and
an undecodable block both send the impression to the legacy path. Other
typed fields of the block are not modelled. -/
def decodePrebidBidder : RawMessage → Option (List (String × RawMessage))
  | .invalid _ => none
  | .valid .null => none
  | .valid (.obj fs) =>
      match alookup (dedupKeys fs) "bidder" with
      | some (Json.obj bs) => some (jsonFieldsToRaw bs)
      | _ => none
  | .valid _ => none

/-- Per-impression loop of `splitImps` (utils.go:236-262): extract the
shared `"context"` and `"prebid"` entries, choose the declared-bidder
path when `prebid.bidder` decodes to a non-nil map, and otherwise pass
the whole extension map through the legacy path. The local `errList` of
the Go loop is the second component. -/
def splitImpsLoop :
    List (Imp × List (String × RawMessage)) → List (String × List Imp) × List Err →
    List (String × List Imp) × List Err
  | [], acc => acc
  | (imp, impExt) :: rest, (out, errs) =>
      let firstPartyDataContext := alookup impExt "context"
      let rawPrebidExt := alookup impExt "prebid"
      let step :=
        match rawPrebidExt with
        | some rp =>
            match decodePrebidBidder rp with
            | some bidderMap =>
                sanitizedImpCopy imp bidderMap (some rp) firstPartyDataContext out
            | none => sanitizedImpCopy imp impExt rawPrebidExt firstPartyDataContext out
        | none => sanitizedImpCopy imp impExt rawPrebidExt firstPartyDataContext out
      splitImpsLoop rest (step.1, errs ++ step.2)

/-- `splitImps` (utils.go:227-265). On a batch decode failure it returns
no map and the single decode error. Otherwise it returns the per-bidder
map and — exactly as the source does at line 264 (`return splitImps,
nil`) — an empty error list, discarding the loop's accumulated
`errList`. -/
def splitImps (imps : List Imp) : Option (List (String × List Imp)) × List Err :=
  match parseImpExts imps with
  | .error e => (none, [e])
  | .ok impExts => (some (splitImpsLoop (imps.zip impExts) ([], [])).1, [])

/-- Final value of the local variable `errList` inside `splitImps`
(utils.go:234, 252, 260), which line 264 drops. -/
def splitImpsDiscardedErrs (imps : List Imp) : List Err :=
  match parseImpExts imps with
  | .error _ => []
  | .ok impExts => (splitImpsLoop (imps.zip impExts) ([], [])).2

/-- Model of `openrtb.Source`; the router serializes the selected chain
into `ext`, the only field it touches (`tid` stands for the untouched
fields). -/
structure Source where
  tid : String
  ext : Option RawMessage

/-- Model of `openrtb.User`: the buyer identifier, the raw extension,
and a representative untouched field `id`. -/
structure User where
  id : String
  buyerUID : String
  ext : Option RawMessage

/-- Modelled from the spec: `openrtb_ext.ExtUserPrebid` (outside
`src/`), the nested directive block listing explicit per-bidder buyer
identifiers (`user.ext.prebid.buyeruids`). -/
structure ExtUserPrebid where
  buyerUIDs : Option (List (String × String))

/-- Modelled from the spec: `openrtb_ext.ExtUser` (outside `src/`)
carries a consent string, a digital-identity block (`digitrust`) and the
optional `prebid` directive block. -/
structure ExtUser where
  consent : String
  digiTrust : Option Json
  prebid : Option ExtUserPrebid

/-- Modelled from the spec: decode of `user.Ext` into `ExtUser`
(utils.go:196). `null` sub-values leave the zero value as Go's
`encoding/json` does; a `consent` that is not a string, a `digitrust`
that is not an object, a `prebid`/`buyeruids` of the wrong shape, or a
non-object document all fail. -/
def decodeExtUserPrebid (j : Json) : Option ExtUserPrebid :=
  match j with
  | .null => some { buyerUIDs := none }
  | .obj fs =>
      match alookup (dedupKeys fs) "buyeruids" with
      | none => some { buyerUIDs := none }
      | some .null => some { buyerUIDs := none }
      | some (.obj us) =>
          (us.foldr (fun kv acc =>
              match kv.2, acc with
              | Json.str s, some m => some ((kv.1, s) :: m)
              | _, _ => none) (some [])).map
            (fun m => { buyerUIDs := some (dedupKeys m) })
      | some _ => none
  | _ => none

def decodeConsentField : Option Json → Option String
  | none => some ""
  | some .null => some ""
  | some (.str s) => some s
  | some _ => none

def decodeDigiField : Option Json → Option (Option Json)
  | none => some none
  | some .null => some none
  | some (.obj ds) => some (some (.obj ds))
  | some _ => none

def decodePrebidField : Option Json → Option (Option ExtUserPrebid)
  | none => some none
  | some .null => some none
  | some pj => (decodeExtUserPrebid pj).map some

def decodeExtUser (j : Json) : Option ExtUser :=
  match j with
  | .null => some { consent := "", digiTrust := none, prebid := none }
  | .obj fs =>
      match decodeConsentField (alookup (dedupKeys fs) "consent"),
            decodeDigiField (alookup (dedupKeys fs) "digitrust"),
            decodePrebidField (alookup (dedupKeys fs) "prebid") with
      | some c, some d, some p => some { consent := c, digiTrust := d, prebid := p }
      | _, _, _ => none
  | _ => none

/-- Modelled from the spec: re-marshal of `ExtUser` (utils.go:208);
empty fields are omitted, matching the struct's omitempty tags. Marshal
of this struct cannot fail. -/
def encodeExtUser (e : ExtUser) : Json :=
  Json.obj
    ((if e.consent = "" then [] else [("consent", Json.str e.consent)]) ++
     (match e.digiTrust with
      | none => []
      | some d => [("digitrust", d)]) ++
     (match e.prebid with
      | none => []
      | some p =>
          [("prebid", Json.obj
            (match p.buyerUIDs with
             | none => []
             | some us => [("buyeruids", Json.obj (us.map (fun kv => (kv.1, Json.str kv.2))))]))]))

/-- `extractBuyerUIDs` (utils.go:187-217): pull the explicit buyer
identifiers out of `user.ext.prebid.buyeruids`, strip the whole
`prebid` directive from the shared user extension, keep the extension
when a consent string or digitrust block remains, and clear it to nil
otherwise. The Go function mutates `user` through a pointer; the model
returns the updated user alongside the map. -/
def extractBuyerUIDs : Option User → Except Err (Option (List (String × String)) × Option User)
  | none => .ok (none, none)
  | some user =>
      match user.ext with
      | none => .ok (none, some user)
      | some (.invalid _) => .error Err.userExtDecode
      | some (.valid j) =>
          match decodeExtUser j with
          | none => .error Err.userExtDecode
          | some userExt =>
              match userExt.prebid with
              | none => .ok (none, some user)
              | some prebid =>
                  if userExt.consent ≠ "" ∨ userExt.digiTrust.isSome then
                    .ok (prebid.buyerUIDs,
                      some { user with
                        ext := some (.valid (encodeExtUser { userExt with prebid := none })) })
                  else
                    .ok (prebid.buyerUIDs, some { user with ext := none })

/-- `copyWithBuyerUID` (utils.go:348-360): overwrite the `BuyerUID` of a
clone only when the template's field is empty, or build a fresh user
when none exists; an already-populated user is returned as-is. -/
def copyWithBuyerUID : Option User → String → User
  | none, buyerUID => { id := "", buyerUID := buyerUID, ext := none }
  | some user, buyerUID =>
      if user.buyerUID = "" then { user with buyerUID := buyerUID } else user

/-- Modelled from the spec: `openrtb_ext.ExtRequestPrebidSChainSChain`
(outside `src/`), one chain-of-custody node list. -/
structure ExtRequestPrebidSChainSChain where
  ver : String
  complete : Int
  nodes : List Json

/-- Modelled from the spec: one `request.ext.prebid.schains` entry,
associating a chain with a list of bidder names (or the wildcard). -/
structure ExtRequestPrebidSChain where
  bidders : List String
  schain : ExtRequestPrebidSChainSChain

structure ExtRequestPrebidCacheBids where
  returnCreative : Option Bool

structure ExtRequestPrebidCacheVAST where
  returnCreative : Option Bool

/-- Modelled from the spec: `request.ext.prebid.cache` with its
`bids`/`vastxml` sections, each optionally carrying `returnCreative`. -/
structure ExtRequestPrebidCache where
  bids : Option ExtRequestPrebidCacheBids
  vastXML : Option ExtRequestPrebidCacheVAST

/-- Modelled from the spec: the parsed top-level request extension
(`openrtb_ext.ExtRequest`, outside `src/`), restricted to the fields the
embedded functions read. -/
structure ExtRequestPrebid where
  schains : List ExtRequestPrebidSChain
  cache : Option ExtRequestPrebidCache

structure ExtRequest where
  prebid : ExtRequestPrebid

/-- Inner loop of `BidderToPrebidSChains` (utils.go:32-39): walk one
association's bidder list, rejecting a bidder already bound to a chain. -/
def sChainBiddersLoop (schain : ExtRequestPrebidSChainSChain) :
    List String → List (String × ExtRequestPrebidSChainSChain) →
    Except Err (List (String × ExtRequestPrebidSChainSChain))
  | [], acc => .ok acc
  | bidder :: rest, acc =>
      if (alookup acc bidder).isSome then .error (Err.duplicateSChain bidder)
      else sChainBiddersLoop schain rest (acc ++ [(bidder, schain)])

def bidderToSChainsLoop :
    List ExtRequestPrebidSChain → List (String × ExtRequestPrebidSChainSChain) →
    Except Err (List (String × ExtRequestPrebidSChainSChain))
  | [], acc => .ok acc
  | w :: rest, acc =>
      match sChainBiddersLoop w.schain w.bidders acc with
      | .error e => .error e
      | .ok acc2 => bidderToSChainsLoop rest acc2

/-- `BidderToPrebidSChains` (utils.go:27-44): build the bidder-to-chain
map, failing (with a nil map, here the `error` case) when a bidder name
already has a chain. -/
def BidderToPrebidSChains (req : Option ExtRequest) :
    Except Err (List (String × ExtRequestPrebidSChainSChain)) :=
  match req with
  | none => .ok []
  | some r => bidderToSChainsLoop r.prebid.schains []

/-- Modelled from the spec: JSON encoding of a chain (the openrtb_ext
struct encoders are outside `src/`); nothing below depends on its exact
shape. -/
def encodeSChain (c : ExtRequestPrebidSChainSChain) : Json :=
  Json.obj [("ver", Json.str c.ver), ("complete", Json.num c.complete),
    ("nodes", Json.arr c.nodes)]

/-- Serialization of `openrtb_ext.ExtRequestPrebidSChain` wrapping the
selected chain (utils.go:176-179); marshal of this struct cannot fail,
so the `err == nil` guard of line 180 always passes. -/
def marshalSChain (c : ExtRequestPrebidSChainSChain) : RawMessage :=
  .valid (Json.obj [("schain", encodeSChain c)])

structure BidRequest where
  imp : List Imp
  user : Option User
  source : Option Source
  app : Option Unit
  test : Int
  ext : Option RawMessage

/-- Lines 172-182 of `prepareSource`: create the source object when
absent and write the serialized chain into its extension field. -/
def prepareSourceSet (req : BidRequest) (c : ExtRequestPrebidSChainSChain) : BidRequest :=
  let src := match req.source with
    | none => ({ tid := "", ext := none } : Source)
    | some s => s
  { req with source := some { src with ext := some (marshalSChain c) } }

/-- `prepareSource` (utils.go:154-183): bidder-specific chain first,
wildcard chain otherwise, and no modification at all when neither is
present. -/
def prepareSource (req : BidRequest) (bidder : String)
    (sChainsByBidder : List (String × ExtRequestPrebidSChainSChain)) : BidRequest :=
  let wildCardSChain := alookup sChainsByBidder "*"
  let bidderSChain := alookup sChainsByBidder bidder
  match bidderSChain, wildCardSChain with
  | none, none => req
  | some c, _ => prepareSourceSet req c
  | none, some c => prepareSourceSet req c

/-- `prepareUser` (utils.go:334-344): explicit identifier under the
given (possibly aliased) name wins, then a synced identifier under the
canonical name, else the user is untouched; the returned flag reports
only whether a sync existed. The user-sync store (`IdFetcher.GetId`) is
modelled as a partial map from canonical names to identifiers. -/
def prepareUser (req : BidRequest) (givenBidder coreBidder : String)
    (explicitBuyerUIDs : List (String × String))
    (usersyncs : String → Option String) : BidRequest × Bool :=
  let cookieId := usersyncs coreBidder
  match alookup explicitBuyerUIDs givenBidder with
  | some id => ({ req with user := some (copyWithBuyerUID req.user id) }, cookieId.isSome)
  | none =>
      match cookieId with
      | some cid => ({ req with user := some (copyWithBuyerUID req.user cid) }, true)
      | none => (req, false)

/-- `resolveBidder` (utils.go:363-368). -/
def resolveBidder (bidder : String) (aliases : List (String × String)) : String :=
  match alookup aliases bidder with
  | some coreBidder => coreBidder
  | none => bidder

/-- Modelled from the spec: `pbsmetrics` labeling metadata attached to
each per-bidder request for observability (the package is outside
`src/`). -/
inductive CookieFlag where
  | yes
  | no
  | unknown

inductive AdapterBid where
  | present
  | absent

structure AdapterLabels where
  source : String
  rtype : String
  adapter : String
  pubID : String
  cookieFlag : CookieFlag
  adapterBids : AdapterBid

/-- Modelled from the spec: JSON re-encoding of the request-extension
template (struct encoders are outside `src/`); marshal of the struct
cannot fail. Claims depend only on schains being cleared first. -/
def encodeReturnCreative (rc : Option Bool) : List (String × Json) :=
  match rc with
  | none => []
  | some b => [("returnCreative", Json.bool b)]

def encodeCacheFields (cache : ExtRequestPrebidCache) : List (String × Json) :=
  (match cache.bids with
   | none => []
   | some b => [("bids", Json.obj (encodeReturnCreative b.returnCreative))]) ++
  (match cache.vastXML with
   | none => []
   | some v => [("vastxml", Json.obj (encodeReturnCreative v.returnCreative))])

def encodeSChainWrapper (w : ExtRequestPrebidSChain) : Json :=
  Json.obj [("bidders", Json.arr (w.bidders.map Json.str)),
    ("schain", encodeSChain w.schain)]

def encodeExtRequest (e : ExtRequest) : Json :=
  Json.obj [("prebid", Json.obj
    ((match e.prebid.cache with
      | none => []
      | some c => [("cache", Json.obj (encodeCacheFields c))]) ++
     (match e.prebid.schains with
      | [] => []
      | ws => [("schains", Json.arr (ws.map encodeSChainWrapper))])))]

/-- `getExtJson` (utils.go:144-152): empty raw extension when the
request has none or the parsed extension is nil, otherwise a re-marshal
of the parsed extension with the schain declarations removed. -/
def getExtJson (req : BidRequest) (unpackedExt : Option ExtRequest) : Option RawMessage :=
  match req.ext, unpackedExt with
  | none, _ => none
  | _, none => none
  | some _, some e =>
      some (.valid (encodeExtRequest { e with prebid := { e.prebid with schains := [] } }))

/-- Modelled from the spec: the inbound unit of work (`AuctionRequest`
is declared elsewhere in the exchange package, outside `src/`): raw bid
request, parsed top-level extension, alias table, user-sync lookup and
caller-labeling metadata. -/
structure AuctionRequest where
  bidRequest : BidRequest
  ext : Option ExtRequest
  aliases : List (String × String)
  userSyncs : String → Option String
  legacyLabels : AdapterLabels

/-- Modelled from the spec: the output unit, one per (bidder, request)
pair (`BidderRequest` is declared elsewhere in the exchange package,
outside `src/`). -/
structure BidderRequest where
  bidderName : String
  bidderCoreName : String
  bidRequest : BidRequest
  bidderLabels : AdapterLabels

/-- Per-bidder loop of `getAuctionBidderRequests` (utils.go:112-140). -/
def auctionBidderLoop (req : AuctionRequest) (base : BidRequest)
    (reqExt : Option RawMessage)
    (sChainsByBidder : List (String × ExtRequestPrebidSChainSChain))
    (explicitBuyerUIDs : List (String × String)) :
    List (String × List Imp) → List BidderRequest
  | [] => []
  | (bidder, imps) :: rest =>
      let coreBidder := resolveBidder bidder req.aliases
      let reqCopy := { base with imp := imps, ext := reqExt }
      let reqCopy := prepareSource reqCopy bidder sChainsByBidder
      let prepared := prepareUser reqCopy bidder coreBidder explicitBuyerUIDs req.userSyncs
      let labels : AdapterLabels :=
        { source := req.legacyLabels.source
          rtype := req.legacyLabels.rtype
          adapter := coreBidder
          pubID := req.legacyLabels.pubID
          cookieFlag := req.legacyLabels.cookieFlag
          adapterBids := AdapterBid.present }
      let labels :=
        if ¬prepared.2 ∧ req.bidRequest.app = none then
          { labels with cookieFlag := CookieFlag.no }
        else
          { labels with cookieFlag := CookieFlag.yes }
      { bidderName := bidder
        bidderCoreName := coreBidder
        bidRequest := prepared.1
        bidderLabels := labels } ::
        auctionBidderLoop req base reqExt sChainsByBidder explicitBuyerUIDs rest

/-- `getAuctionBidderRequests` (utils.go:86-142): partition the
impressions, extract the explicit buyer identifiers (mutating the shared
user through its pointer, modelled by threading the updated user), build
the supply-chain map, compute the shared extension template, and emit
one request per addressed bidder; every error so far aborts with that
error alone. Go map iteration order is arbitrary; the model iterates the
partition in its insertion order. -/
def getAuctionBidderRequests (req : AuctionRequest) : List BidderRequest × List Err :=
  match splitImps req.bidRequest.imp with
  | (none, errs) => ([], errs)
  | (some impsByBidder, errs) =>
      if errs.length > 0 then ([], errs)
      else
        match extractBuyerUIDs req.bidRequest.user with
        | .error e => ([], [e])
        | .ok (explicitBuyerUIDs, user2) =>
            match BidderToPrebidSChains req.ext with
            | .error e => ([], [e])
            | .ok sChainsByBidder =>
                let base := { req.bidRequest with user := user2 }
                let reqExt := getExtJson req.bidRequest req.ext
                (auctionBidderLoop req base reqExt sChainsByBidder
                  (explicitBuyerUIDs.getD []) impsByBidder, [])

/-- Modelled from the spec: account-level privacy override keyed by the
caller's integration type (`config.Account*` are outside `src/`). -/
inductive IntegrationType where
  | amp
  | app
  | video
  | web

structure AccountGDPR where
  enabledForIntegrationType : IntegrationType → Option Bool

structure AccountCCPA where
  enabledForIntegrationType : IntegrationType → Option Bool

structure Account where
  gdpr : AccountGDPR
  ccpa : AccountCCPA

/-- Modelled from the spec: system-wide privacy defaults
(`config.Privacy`, outside `src/`). -/
structure PrivacyGDPRConfig where
  enabled : Bool

structure PrivacyCCPAConfig where
  enforce : Bool

structure PrivacyLMTConfig where
  enforce : Bool

structure Privacy where
  gdpr : PrivacyGDPRConfig
  ccpa : PrivacyCCPAConfig
  lmt : PrivacyLMTConfig

/-- `gdprEnabled` (utils.go:46-51). -/
def gdprEnabled (account : Account) (privacyConfig : Privacy)
    (integrationType : IntegrationType) : Bool :=
  match account.gdpr.enabledForIntegrationType integrationType with
  | some accountEnabled => accountEnabled
  | none => privacyConfig.gdpr.enabled

/-- `ccpaEnabled` (utils.go:53-58). -/
def ccpaEnabled (account : Account) (privacyConfig : Privacy)
    (requestType : IntegrationType) : Bool :=
  match account.ccpa.enabledForIntegrationType requestType with
  | some accountEnabled => accountEnabled
  | none => privacyConfig.ccpa.enforce

/-- Resolved cache instructions (`extCacheInstructions` is declared
elsewhere in the exchange package, outside `src/`; its three fields are
exactly the ones `getExtCacheInstructions` writes). -/
structure extCacheInstructions where
  cacheBids : Bool
  cacheVAST : Bool
  returnCreative : Bool

/-- `getExtCacheInstructions` (utils.go:435-463): `returnCreative`
defaults to true, is taken from whichever of `prebid.cache.bids` /
`prebid.cache.vastxml` specifies it, and is the OR of the two when both
do. -/
def getExtCacheInstructions (requestExt : Option ExtRequest) : extCacheInstructions :=
  let start : extCacheInstructions :=
    { cacheBids := false, cacheVAST := false, returnCreative := true }
  match requestExt with
  | none => start
  | some ext =>
      match ext.prebid.cache with
      | none => start
      | some cache =>
          let bidsStep : extCacheInstructions × Bool :=
            match cache.bids with
            | none => (start, false)
            | some bids =>
                match bids.returnCreative with
                | none => ({ start with cacheBids := true }, false)
                | some rc => ({ start with cacheBids := true, returnCreative := rc }, true)
          let vastStep : extCacheInstructions × Bool :=
            match cache.vastXML with
            | none => (bidsStep.1, false)
            | some vast =>
                match vast.returnCreative with
                | none => ({ bidsStep.1 with cacheVAST := true }, false)
                | some rc => ({ bidsStep.1 with cacheVAST := true, returnCreative := rc }, true)
          if bidsStep.2 ∧ vastStep.2 then
            { vastStep.1 with returnCreative :=
                ((cache.bids.bind ExtRequestPrebidCacheBids.returnCreative).getD false) ||
                ((cache.vastXML.bind ExtRequestPrebidCacheVAST.returnCreative).getD false) }
          else vastStep.1

/-- Model of one `openrtb.Bid` as consumed by the generic adapter (only
`ImpID` is read; `id` stands for the untouched fields). -/
structure GBid where
  id : String
  impID : String

structure SeatBid where
  bid : List GBid

structure BidResponse where
  seatBid : List SeatBid

/-- Model of `adapters.ResponseData`: the transport status code and the
body, abstracted to its decoded `openrtb.BidResponse` form (`none` for a
body that does not unmarshal; the `openrtb` library is an external
collaborator). -/
structure ResponseData where
  statusCode : Nat
  body : Option BidResponse

/-- Errors of the generic adapter: `errortypes.BadInput` from a 400
status, `errortypes.BadServerResponse` from any other non-200/204
status, `errortypes.BadInput` from an unmatched impression id, and the
plain unmarshal error of the body. -/
inductive AdapterErr where
  | badInputStatus (code : Nat)
  | badServerStatus (code : Nat)
  | badInputImpNotFound (impID : String)
  | bodyUnmarshal

inductive BidType where
  | banner
  | video

structure TypedBid where
  bid : GBid
  bidType : BidType

structure BidderResponse where
  bids : List TypedBid

/-- `getMediaTypeForImp` (generic.go:149-164): find the impression with
the bid's id; the media type defaults to banner and is video exactly
when the matched impression has no banner but has a video; an unmatched
id is a `BadInput` error. -/
def getMediaTypeForImp (impID : String) : List Imp → Except AdapterErr BidType
  | [] => .error (AdapterErr.badInputImpNotFound impID)
  | imp :: rest =>
      if imp.id = impID then
        .ok (if imp.banner = none ∧ imp.video ≠ none then BidType.video else BidType.banner)
      else getMediaTypeForImp impID rest

/-- Inner bid loop of `MakeBids` (generic.go:132-145): classify each
bid; a failed classification becomes an error, a successful one a typed
bid. -/
def makeBidsLoop (imps : List Imp) : List GBid → List TypedBid × List AdapterErr
  | [] => ([], [])
  | b :: rest =>
      let tail := makeBidsLoop imps rest
      match getMediaTypeForImp b.impID imps with
      | .error e => (tail.1, e :: tail.2)
      | .ok t => ({ bid := b, bidType := t } :: tail.1, tail.2)

def makeBidsSeatLoop (imps : List Imp) : List SeatBid → List TypedBid × List AdapterErr
  | [] => ([], [])
  | sb :: rest =>
      let here := makeBidsLoop imps sb.bid
      let tail := makeBidsSeatLoop imps rest
      (here.1 ++ tail.1, here.2 ++ tail.2)

/-- `MakeBids` (generic.go:105-147): 204 yields no bids and no error,
400 a single `BadInput`, any other non-200 a single
`BadServerResponse`; a 200 body is decoded and every bid is tagged with
the media type of its matching impression. -/
def MakeBids (internalRequest : BidRequest) (response : ResponseData) :
    Option BidderResponse × List AdapterErr :=
  if response.statusCode = 204 then (none, [])
  else if response.statusCode = 400 then
    (none, [AdapterErr.badInputStatus response.statusCode])
  else if response.statusCode ≠ 200 then
    (none, [AdapterErr.badServerStatus response.statusCode])
  else
    match response.body with
    | none => (none, [AdapterErr.bodyUnmarshal])
    | some bidResp =>
        let looped := makeBidsSeatLoop internalRequest.imp bidResp.seatBid
        (some { bids := looped.1 }, looped.2)

/-- Concrete parameter payload of bidderA in the worked example of the
impression partitioner. -/
def c1pA : Json := Json.obj [("p", Json.num 1)]

def c1pB : Json := Json.obj [("p", Json.num 2)]

def c1ctx : Json := Json.obj [("k", Json.str "v")]

/-- The example impression: ext is
`{"prebid":{"bidder":{"bidderA":{"p":1},"bidderB":{"p":2}}},"context":{"k":"v"}}`. -/
def c1imp : Imp :=
  { id := "imp1", banner := some (), video := none,
    ext := some (.valid (Json.obj
      [("prebid", Json.obj [("bidder", Json.obj [("bidderA", c1pA), ("bidderB", c1pB)])]),
       ("context", c1ctx)])) }

/-- Extension the code actually produces for one of the example's
bidders: the payload, the stripped (now empty) prebid block, and the
context. -/
def c1copyExt (p : Json) : Json :=
  Json.obj [("bidder", p), ("prebid", Json.obj []), ("context", c1ctx)]

/-- The partition the code actually produces for the example
impression. -/
def c1split : List (String × List Imp) :=
  [("bidderA", [{ c1imp with ext := some (.valid (c1copyExt c1pA)) }]),
   ("bidderB", [{ c1imp with ext := some (.valid (c1copyExt c1pB)) }])]

/-- Concrete impression used to exercise `sanitizedImpCopy` error
reporting directly. -/
def c2imp : Imp := { id := "imp2", banner := none, video := none, ext := none }

/-- Impression whose extension is a well-formed object (decodes fine). -/
def c7impGood : Imp :=
  { id := "g", banner := none, video := none,
    ext := some (.valid (Json.obj [("appnexus", Json.obj [("placement", Json.num 7)])])) }

/-- Impression whose extension bytes do not decode as an object. -/
def c7impBad : Imp :=
  { id := "b", banner := none, video := none, ext := some (.invalid "not json") }

/-- Concrete user extension carrying a consent string and the explicit
buyer-identifier directive. -/
def c3userExt : Json :=
  Json.obj
    [("consent", Json.str "yes"),
     ("prebid", Json.obj [("buyeruids", Json.obj [("bidderA", Json.str "uid123")])])]

def c3user : User := { id := "u1", buyerUID := "", ext := some (.valid c3userExt) }

/-- Concrete bid request used by witnesses. -/
def c4req : BidRequest :=
  { imp := [], user := some { id := "u", buyerUID := "", ext := none },
    source := none, app := none, test := 0, ext := none }

def c8account : Account :=
  { gdpr := { enabledForIntegrationType := fun _ => some false },
    ccpa := { enabledForIntegrationType := fun _ => none } }

def c8privacy : Privacy :=
  { gdpr := { enabled := true }, ccpa := { enforce := true }, lmt := { enforce := false } }

/-- All bidder names declared across the schain associations, in
declaration order (the sequence of names the nested loops of
`BidderToPrebidSChains` visit). -/
def flatBidders : List ExtRequestPrebidSChain → List String
  | [] => []
  | w :: rest => w.bidders ++ flatBidders rest

/-- Chain of the first association declaring a bidder, used to state
which chain the built map associates to each name. -/
def wsLookup : List ExtRequestPrebidSChain → String → Option ExtRequestPrebidSChainSChain
  | [], _ => none
  | w :: rest, b => if b ∈ w.bidders then some w.schain else wsLookup rest b

/-- Concrete chains and request extension for the supply-chain
witnesses: the same bidder is declared in two associations. -/
def c5chainX : ExtRequestPrebidSChainSChain :=
  { ver := "1.0", complete := 1, nodes := [Json.str "nodeX"] }

def c5chainY : ExtRequestPrebidSChainSChain :=
  { ver := "1.0", complete := 1, nodes := [Json.str "nodeY"] }

def c5ext : ExtRequest :=
  { prebid :=
    { schains :=
        [{ bidders := ["*", "bidderA"], schain := c5chainX },
         { bidders := ["bidderA"], schain := c5chainY }],
      cache := none } }

def c5req : AuctionRequest :=
  { bidRequest := c4req, ext := some c5ext, aliases := [],
    userSyncs := fun _ => none,
    legacyLabels :=
      { source := "s", rtype := "web", adapter := "", pubID := "p",
        cookieFlag := CookieFlag.unknown, adapterBids := AdapterBid.present } }

def c6map : List (String × ExtRequestPrebidSChainSChain) :=
  [("*", c5chainX), ("bidderA", c5chainY)]

theorem alookup_upsertField {α : Type} (l : List (String × α)) (k : String) (v : α)
    (key : String) :
    alookup (upsertField l k v) key = if k = key then some v else alookup l key := by
  induction l with
  | nil => simp [upsertField, alookup]
  | cons kv rest ih =>
      obtain ⟨k0, v0⟩ := kv
      by_cases h0 : k0 = k
      · subst h0
        have hU : upsertField ((k0, v0) :: rest) k0 v = (k0, v) :: rest := by
          simp [upsertField]
        rw [hU]
        have hL : alookup ((k0, v) :: rest) key =
            if k0 = key then some v else alookup rest key := rfl
        have hR : alookup ((k0, v0) :: rest) key =
            if k0 = key then some v0 else alookup rest key := rfl
        rw [hL, hR]
        by_cases hk : k0 = key
        · simp [hk]
        · simp [hk]
      · have hU : upsertField ((k0, v0) :: rest) k v = (k0, v0) :: upsertField rest k v := by
          simp [upsertField, h0]
        rw [hU]
        have hL : alookup ((k0, v0) :: upsertField rest k v) key =
            if k0 = key then some v0 else alookup (upsertField rest k v) key := rfl
        have hR : alookup ((k0, v0) :: rest) key =
            if k0 = key then some v0 else alookup rest key := rfl
        rw [hL, ih, hR]
        by_cases hk : k0 = key
        · subst hk
          have hkk : ¬ k = k0 := fun h => h0 h.symm
          simp [hkk]
        · simp [hk]

theorem alookup_append {α : Type} (l1 l2 : List (String × α)) (key : String) :
    alookup (l1 ++ l2) key =
      match alookup l1 key with
      | some v => some v
      | none => alookup l2 key := by
  induction l1 with
  | nil => simp [alookup]
  | cons kv rest ih =>
      obtain ⟨k0, v0⟩ := kv
      by_cases hk : k0 = key
      · simp [alookup, hk]
      · simp [alookup, hk, ih]

theorem alookup_appendImp (out : List (String × List Imp)) (b : String) (i : Imp)
    (key : String) :
    alookup (appendImp out b i) key =
      if b = key then some (((alookup out b).getD []) ++ [i]) else alookup out key := by
  simp [appendImp, alookup_upsertField]

theorem alookup_eraseField_self {α : Type} (l : List (String × α)) (k : String) :
    alookup (eraseField l k) k = none := by
  induction l with
  | nil => simp [eraseField, alookup]
  | cons kv rest ih =>
      obtain ⟨k0, v0⟩ := kv
      by_cases h0 : k0 = k
      · simp [eraseField, h0, ih]
      · simp [eraseField, h0, alookup, ih]

theorem rawFieldsToJson_alookup_none {l : List (String × RawMessage)}
    {fs : List (String × Json)} (h : rawFieldsToJson l = some fs) (k : String)
    (hk : alookup l k = none) : alookup fs k = none := by
  induction l generalizing fs with
  | nil =>
      simp [rawFieldsToJson] at h
      subst h
      simp [alookup]
  | cons kv rest ih =>
      obtain ⟨k0, v0⟩ := kv
      cases v0 with
      | invalid t => simp [rawFieldsToJson] at h
      | valid j =>
          simp only [rawFieldsToJson] at h
          cases hr : rawFieldsToJson rest with
          | none => simp [hr] at h
          | some fs0 =>
              rw [hr] at h
              simp only [Option.map_some'] at h
              cases h
              simp only [alookup] at hk ⊢
              by_cases h0 : k0 = k
              · simp [h0] at hk
              · simp only [if_neg h0] at hk ⊢
                exact ih hr hk

theorem foldl_upsert_alookup_none {α : Type} (l : List (String × α))
    (acc : List (String × α)) (k : String)
    (h : alookup (l.foldl (fun acc kv => upsertField acc kv.1 kv.2) acc) k = none) :
    alookup acc k = none ∧ alookup l k = none := by
  induction l generalizing acc with
  | nil => exact ⟨h, rfl⟩
  | cons kv rest ih =>
      obtain ⟨k0, v0⟩ := kv
      simp only [List.foldl_cons] at h
      obtain ⟨hacc, hrest⟩ := ih _ h
      rw [alookup_upsertField] at hacc
      by_cases h0 : k0 = k
      · simp [h0] at hacc
      · simp only [if_neg h0] at hacc
        exact ⟨hacc, by simp [alookup, h0, hrest]⟩

theorem dedupKeys_alookup_none {α : Type} (l : List (String × α)) (k : String)
    (h : alookup (dedupKeys l) k = none) : alookup l k = none :=
  (foldl_upsert_alookup_none l [] k h).2

theorem alookup_map_valid (fs : List (String × Json)) (k : String)
    (h : alookup (fs.map (fun kv => (kv.1, RawMessage.valid kv.2))) k = none) :
    alookup fs k = none := by
  induction fs with
  | nil => simp [alookup]
  | cons kv rest ih =>
      obtain ⟨k0, v0⟩ := kv
      simp only [List.map_cons, alookup] at h ⊢
      by_cases h0 : k0 = k
      · simp [h0] at h
      · simp only [if_neg h0] at h ⊢
        exact ih h

theorem jsonFieldsToRaw_alookup_none (fs : List (String × Json)) (k : String)
    (h : alookup (jsonFieldsToRaw fs) k = none) : alookup fs k = none :=
  alookup_map_valid fs k (dedupKeys_alookup_none _ k h)

theorem mkBidderExt_some (payload : RawMessage) (rp fpd : Option RawMessage)
    (raw : RawMessage) (h : mkBidderExt payload rp fpd = some raw) :
    ∃ pj fs, payload = .valid pj ∧ raw = .valid (.obj fs) ∧
      alookup fs "bidder" = some pj ∧
      ((rp = none ∧ alookup fs "prebid" = none) ∨
        (∃ q, rp = some (.valid q) ∧ alookup fs "prebid" = some q)) ∧
      ((fpd = none ∧ alookup fs "context" = none) ∨
        (∃ c, fpd = some (.valid c) ∧ alookup fs "context" = some c)) ∧
      (∀ k, k ≠ "bidder" → k ≠ "prebid" → k ≠ "context" → alookup fs k = none) := by
  rcases payload with pj | t
  case invalid =>
    rcases rp with _ | rv <;> rcases fpd with _ | cv <;>
      simp [mkBidderExt, marshalObjMap, rawFieldsToJson] at h
  case valid =>
    rcases rp with _ | rv
    · rcases fpd with _ | cv
      · refine ⟨pj, [("bidder", pj)], rfl, ?_, ?_, ?_, ?_, ?_⟩
        · have : mkBidderExt (.valid pj) none none =
              some (.valid (.obj [("bidder", pj)])) := rfl
          rw [this] at h
          exact (Option.some.inj h).symm
        · rfl
        · exact Or.inl ⟨rfl, rfl⟩
        · exact Or.inl ⟨rfl, rfl⟩
        · intro k hk1 hk2 hk3
          have n1 : ¬ "bidder" = k := fun h => hk1 h.symm
          simp [alookup, n1]
      · rcases cv with cj | ct
        · refine ⟨pj, [("bidder", pj), ("context", cj)], rfl, ?_, ?_, ?_, ?_, ?_⟩
          · have : mkBidderExt (.valid pj) none (some (.valid cj)) =
                some (.valid (.obj [("bidder", pj), ("context", cj)])) := rfl
            rw [this] at h
            exact (Option.some.inj h).symm
          · rfl
          · exact Or.inl ⟨rfl, rfl⟩
          · exact Or.inr ⟨cj, rfl, rfl⟩
          · intro k hk1 hk2 hk3
            have n1 : ¬ "bidder" = k := fun h => hk1 h.symm
            have n3 : ¬ "context" = k := fun h => hk3 h.symm
            simp [alookup, n1, n3]
        · simp [mkBidderExt, marshalObjMap, rawFieldsToJson] at h
    · rcases rv with rj | rt
      · rcases fpd with _ | cv
        · refine ⟨pj, [("bidder", pj), ("prebid", rj)], rfl, ?_, ?_, ?_, ?_, ?_⟩
          · have : mkBidderExt (.valid pj) (some (.valid rj)) none =
                some (.valid (.obj [("bidder", pj), ("prebid", rj)])) := rfl
            rw [this] at h
            exact (Option.some.inj h).symm
          · rfl
          · exact Or.inr ⟨rj, rfl, rfl⟩
          · exact Or.inl ⟨rfl, rfl⟩
          · intro k hk1 hk2 hk3
            have n1 : ¬ "bidder" = k := fun h => hk1 h.symm
            have n2 : ¬ "prebid" = k := fun h => hk2 h.symm
            simp [alookup, n1, n2]
        · rcases cv with cj | ct
          · refine ⟨pj, [("bidder", pj), ("prebid", rj), ("context", cj)], rfl,
              ?_, ?_, ?_, ?_, ?_⟩
            · have : mkBidderExt (.valid pj) (some (.valid rj)) (some (.valid cj)) =
                  some (.valid (.obj [("bidder", pj), ("prebid", rj), ("context", cj)])) := rfl
              rw [this] at h
              exact (Option.some.inj h).symm
            · rfl
            · exact Or.inr ⟨rj, rfl, rfl⟩
            · exact Or.inr ⟨cj, rfl, rfl⟩
            · intro k hk1 hk2 hk3
              have n1 : ¬ "bidder" = k := fun h => hk1 h.symm
              have n2 : ¬ "prebid" = k := fun h => hk2 h.symm
              have n3 : ¬ "context" = k := fun h => hk3 h.symm
              simp [alookup, n1, n2, n3]
          · simp [mkBidderExt, marshalObjMap, rawFieldsToJson] at h
      · rcases fpd with _ | cv
        · simp [mkBidderExt, marshalObjMap, rawFieldsToJson] at h
        · rcases cv with cj | ct <;>
            simp [mkBidderExt, marshalObjMap, rawFieldsToJson] at h

theorem stripPrebid_obj_no_bidder (rp0 : Option RawMessage) (bs : List (String × Json))
    (h : (stripPrebid rp0).1 = some (.valid (.obj bs))) : alookup bs "bidder" = none := by
  rcases rp0 with _ | rp
  · simp [stripPrebid] at h
  · rcases rp with j | t
    · rcases j with _ | b | n | s | es | fs
      case null => simp [stripPrebid, unmarshalObjMap, alookup] at h
      case bool => simp [stripPrebid, unmarshalObjMap] at h
      case num => simp [stripPrebid, unmarshalObjMap] at h
      case str => simp [stripPrebid, unmarshalObjMap] at h
      case arr => simp [stripPrebid, unmarshalObjMap] at h
      case obj =>
          simp only [stripPrebid, unmarshalObjMap] at h
          by_cases hb : (alookup (jsonFieldsToRaw fs) "bidder").isSome
          · rw [if_pos hb] at h
            cases hm : marshalObjMap (eraseField (jsonFieldsToRaw fs) "bidder") with
            | none => rw [hm] at h; simp at h
            | some newRaw =>
                rw [hm] at h
                simp only at h
                cases h
                simp only [marshalObjMap] at hm
                cases hr : rawFieldsToJson (eraseField (jsonFieldsToRaw fs) "bidder") with
                | none => rw [hr] at hm; simp at hm
                | some fs2 =>
                    rw [hr] at hm
                    simp only [Option.map_some'] at hm
                    have hfs2 : fs2 = bs := by
                      have := Option.some.inj hm
                      cases this
                      rfl
                    subst hfs2
                    exact rawFieldsToJson_alookup_none hr "bidder"
                      (alookup_eraseField_self _ "bidder")
          · rw [if_neg hb] at h
            simp only at h
            cases h
            have hnone : alookup (jsonFieldsToRaw bs) "bidder" = none := by
              cases hx : alookup (jsonFieldsToRaw bs) "bidder" with
              | none => rfl
              | some v => rw [hx] at hb; simp at hb
            exact jsonFieldsToRaw_alookup_none bs "bidder" hnone
    · simp [stripPrebid, unmarshalObjMap] at h

theorem sanitizedLoop_mem (imp : Imp) (rp fpd : Option RawMessage) :
    ∀ (l : List (String × RawMessage)) (out : List (String × List Imp)) (errs : List Err)
      (b : String) (ic : Imp),
      ic ∈ ((alookup (sanitizedLoop imp rp fpd l (out, errs)).1 b).getD []) →
      ic ∈ ((alookup out b).getD []) ∨
        ∃ payload raw, (b, payload) ∈ l ∧ b ≠ "prebid" ∧ b ≠ "context" ∧
          mkBidderExt payload rp fpd = some raw ∧ ic = { imp with ext := some raw } := by
  intro l
  induction l with
  | nil =>
      intro out errs b ic h
      exact Or.inl h
  | cons kv rest ih =>
      obtain ⟨k, ext⟩ := kv
      intro out errs b ic h
      by_cases hk : k = "prebid" ∨ k = "context"
      · rw [show sanitizedLoop imp rp fpd ((k, ext) :: rest) (out, errs) =
            sanitizedLoop imp rp fpd rest (out, errs) by simp [sanitizedLoop, hk]] at h
        rcases ih out errs b ic h with hout | ⟨payload, raw, hmem, hrest⟩
        · exact Or.inl hout
        · exact Or.inr ⟨payload, raw, List.mem_cons_of_mem _ hmem, hrest⟩
      · cases hmk : mkBidderExt ext rp fpd with
        | none =>
            rw [show sanitizedLoop imp rp fpd ((k, ext) :: rest) (out, errs) =
                sanitizedLoop imp rp fpd rest (out, errs ++ [Err.marshalFailure]) by
              simp [sanitizedLoop, hk, hmk]] at h
            rcases ih out _ b ic h with hout | ⟨payload, raw, hmem, hrest⟩
            · exact Or.inl hout
            · exact Or.inr ⟨payload, raw, List.mem_cons_of_mem _ hmem, hrest⟩
        | some raw =>
            rw [show sanitizedLoop imp rp fpd ((k, ext) :: rest) (out, errs) =
                sanitizedLoop imp rp fpd rest
                  (appendImp out k { imp with ext := some raw }, errs) by
              simp [sanitizedLoop, hk, hmk]] at h
            rcases ih _ errs b ic h with hout | ⟨payload, raw2, hmem, hrest⟩
            · rw [alookup_appendImp] at hout
              by_cases hkb : k = b
              · subst hkb
                rw [if_pos rfl] at hout
                simp only [Option.getD_some] at hout
                rcases List.mem_append.1 hout with hold | hnew
                · exact Or.inl hold
                · have hic : ic = { imp with ext := some raw } := by
                    simpa using hnew
                  push_neg at hk
                  exact Or.inr ⟨ext, raw, List.mem_cons_self _ _, hk.1, hk.2, hmk, hic⟩
              · rw [if_neg hkb] at hout
                exact Or.inl hout
            · exact Or.inr ⟨payload, raw2, List.mem_cons_of_mem _ hmem, hrest⟩

theorem sanitizedImpCopy_mem (imp : Imp) (bexts : List (String × RawMessage))
    (rp0 fpd : Option RawMessage) (out : List (String × List Imp)) (b : String) (ic : Imp)
    (h : ic ∈ ((alookup (sanitizedImpCopy imp bexts rp0 fpd out).1 b).getD [])) :
    ic ∈ ((alookup out b).getD []) ∨
      ∃ payload raw, (b, payload) ∈ bexts ∧ b ≠ "prebid" ∧ b ≠ "context" ∧
        mkBidderExt payload (stripPrebid rp0).1 fpd = some raw ∧
        ic = { imp with ext := some raw } := by
  have h2 : ic ∈ ((alookup
      (sanitizedLoop imp (stripPrebid rp0).1 fpd bexts (out, (stripPrebid rp0).2)).1 b).getD []) := h
  exact sanitizedLoop_mem imp (stripPrebid rp0).1 fpd bexts out _ b ic h2

theorem splitImpsLoop_mem :
    ∀ (pairs : List (Imp × List (String × RawMessage))) (out : List (String × List Imp))
      (errs : List Err) (b : String) (ic : Imp),
      ic ∈ ((alookup (splitImpsLoop pairs (out, errs)).1 b).getD []) →
      ic ∈ ((alookup out b).getD []) ∨
        ∃ (imp : Imp) (bexts : List (String × RawMessage)) (rp0 fpd : Option RawMessage)
          (payload raw : RawMessage),
          (b, payload) ∈ bexts ∧ b ≠ "prebid" ∧ b ≠ "context" ∧
          mkBidderExt payload (stripPrebid rp0).1 fpd = some raw ∧
          ic = { imp with ext := some raw } := by
  intro pairs
  induction pairs with
  | nil =>
      intro out errs b ic h
      exact Or.inl h
  | cons pr rest ih =>
      obtain ⟨imp, impExt⟩ := pr
      intro out errs b ic h
      have hstep : ∃ (bexts : List (String × RawMessage)) (rp0 : Option RawMessage),
          splitImpsLoop ((imp, impExt) :: rest) (out, errs) =
            splitImpsLoop rest
              ((sanitizedImpCopy imp bexts rp0 (alookup impExt "context") out).1,
               errs ++ (sanitizedImpCopy imp bexts rp0 (alookup impExt "context") out).2) := by
        cases hrp : alookup impExt "prebid" with
        | none =>
            exact ⟨impExt, none, by simp [splitImpsLoop, hrp]⟩
        | some rp =>
            cases hdec : decodePrebidBidder rp with
            | none => exact ⟨impExt, some rp, by simp [splitImpsLoop, hrp, hdec]⟩
            | some bidderMap => exact ⟨bidderMap, some rp, by simp [splitImpsLoop, hrp, hdec]⟩
      obtain ⟨bexts, rp0, hstep⟩ := hstep
      rw [hstep] at h
      rcases ih _ _ b ic h with hout | hex
      · rcases sanitizedImpCopy_mem imp bexts rp0 _ out b ic hout with hout2 | hnew
        · exact Or.inl hout2
        · obtain ⟨payload, raw, hmem, hb1, hb2, hmk, hic⟩ := hnew
          exact Or.inr ⟨imp, bexts, rp0, _, payload, raw, hmem, hb1, hb2, hmk, hic⟩
      · exact Or.inr hex

theorem exceptMap_error_iff {α β : Type} (x : Except Err α) (f : α → β) (e : Err) :
    x.map f = .error e ↔ x = .error e := by
  cases x <;> simp [Except.map]

theorem parseImpExtsFrom_error_shape :
    ∀ (imps : List Imp) (n : Nat) (e : Err),
      parseImpExtsFrom n imps = .error e → ∃ i, e = Err.impExtDecode i := by
  intro imps
  induction imps with
  | nil =>
      intro n e h
      simp [parseImpExtsFrom] at h
  | cons imp rest ih =>
      intro n e h
      simp only [parseImpExtsFrom] at h
      cases hd : decodeImpExt imp with
      | none =>
          rw [hd] at h
          simp only at h
          cases h
          exact ⟨n, rfl⟩
      | some m =>
          rw [hd] at h
          simp only at h
          rw [exceptMap_error_iff] at h
          exact ih (n + 1) e h

theorem parseImpExtsFrom_error_iff :
    ∀ (imps : List Imp) (n i : Nat),
      parseImpExtsFrom n imps = .error (Err.impExtDecode i) ↔
        ∃ pre imp post, imps = pre ++ imp :: post ∧ i = n + pre.length ∧
          decodeImpExt imp = none ∧ ∀ x ∈ pre, decodeImpExt x ≠ none := by
  intro imps
  induction imps with
  | nil =>
      intro n i
      constructor
      · intro h
        simp [parseImpExtsFrom] at h
      · rintro ⟨pre, imp, post, habs, -⟩
        cases pre <;> simp at habs
  | cons a rest ih =>
      intro n i
      cases hd : decodeImpExt a with
      | none =>
          constructor
          · intro h
            simp only [parseImpExtsFrom, hd] at h
            cases h
            exact ⟨[], a, rest, rfl, by simp, hd, by simp⟩
          · rintro ⟨pre, imp, post, hdec, hi, himp, hpre⟩
            cases pre with
            | nil =>
                simp only [List.nil_append] at hdec
                cases hdec
                simp only [List.length_nil, Nat.add_zero] at hi
                subst hi
                simp [parseImpExtsFrom, hd]
            | cons p pre2 =>
                simp only [List.cons_append, List.cons.injEq] at hdec
                obtain ⟨hp, -⟩ := hdec
                subst hp
                exact absurd hd (hpre a (List.mem_cons_self _ _))
      | some m =>
          have hmap : parseImpExtsFrom n (a :: rest) =
              (parseImpExtsFrom (n + 1) rest).map (fun ms => m :: ms) := by
            simp [parseImpExtsFrom, hd]
          constructor
          · intro h
            rw [hmap, exceptMap_error_iff] at h
            obtain ⟨pre, imp, post, hdec, hi, himp, hpre⟩ := (ih (n + 1) i).1 h
            refine ⟨a :: pre, imp, post, by simp [hdec], by simp [hi]; omega, himp, ?_⟩
            intro x hx
            rcases List.mem_cons.1 hx with rfl | hx2
            · simp [hd]
            · exact hpre x hx2
          · rintro ⟨pre, imp, post, hdec, hi, himp, hpre⟩
            cases pre with
            | nil =>
                simp only [List.nil_append] at hdec
                cases hdec
                exact absurd hd (by simp [himp])
            | cons p pre2 =>
                simp only [List.cons_append, List.cons.injEq] at hdec
                obtain ⟨hp, hrest⟩ := hdec
                subst hp
                rw [hmap, exceptMap_error_iff]
                refine (ih (n + 1) i).2 ⟨pre2, imp, post, hrest, ?_, himp, ?_⟩
                · simp at hi
                  omega
                · intro x hx
                  exact hpre x (List.mem_cons_of_mem _ hx)

/-- C1 (amended): every per-bidder impression copy produced by the
partitioner (`splitImps` via `sanitizedImpCopy`) carries an extension
object holding exactly the bidder's own payload under `"bidder"`, the
shared prebid block with its internal `"bidder"` field removed whenever
a prebid block was present — including when stripping leaves it an empty
object — and the shared context when present; no other key ever appears,
so one bidder's copy never contains another bidder's payload.
Concretely, the example impression partitions into a bidderA copy with
ext `{"bidder":{"p":1},"prebid":{},"context":{"k":"v"}}` and the
symmetric bidderB copy (the code keeps the emptied `"prebid"` block,
unlike the claimed example). -/
theorem splitImps_per_bidder_ext_exact :
    (∀ (imp : Imp) (bexts : List (String × RawMessage)) (rp0 fpd : Option RawMessage)
       (out : List (String × List Imp)) (b : String) (ic : Imp),
       ic ∈ ((alookup (sanitizedImpCopy imp bexts rp0 fpd out).1 b).getD []) →
       ic ∈ ((alookup out b).getD []) ∨
         ∃ payload raw, (b, payload) ∈ bexts ∧ b ≠ "prebid" ∧ b ≠ "context" ∧
           mkBidderExt payload (stripPrebid rp0).1 fpd = some raw ∧
           ic = { imp with ext := some raw }) ∧
    (∀ (payload : RawMessage) (rp fpd : Option RawMessage) (raw : RawMessage),
       mkBidderExt payload rp fpd = some raw →
       ∃ pj fs, payload = .valid pj ∧ raw = .valid (.obj fs) ∧
         alookup fs "bidder" = some pj ∧
         ((rp = none ∧ alookup fs "prebid" = none) ∨
           (∃ q, rp = some (.valid q) ∧ alookup fs "prebid" = some q)) ∧
         ((fpd = none ∧ alookup fs "context" = none) ∨
           (∃ c, fpd = some (.valid c) ∧ alookup fs "context" = some c)) ∧
         (∀ k, k ≠ "bidder" → k ≠ "prebid" → k ≠ "context" → alookup fs k = none)) ∧
    (∀ (rp0 : Option RawMessage) (bs : List (String × Json)),
       (stripPrebid rp0).1 = some (.valid (.obj bs)) → alookup bs "bidder" = none) ∧
    (∀ (imps : List Imp) (m : List (String × List Imp)) (b : String) (ic : Imp),
       (splitImps imps).1 = some m → ic ∈ ((alookup m b).getD []) →
       ∃ fs, ic.ext = some (.valid (.obj fs)) ∧ (alookup fs "bidder").isSome ∧
         (∀ k, k ≠ "bidder" → k ≠ "prebid" → k ≠ "context" → alookup fs k = none) ∧
         (∀ bs, alookup fs "prebid" = some (Json.obj bs) → alookup bs "bidder" = none)) ∧
    splitImps [c1imp] = (some c1split, []) := by
  refine ⟨sanitizedImpCopy_mem, mkBidderExt_some, stripPrebid_obj_no_bidder, ?_, rfl⟩
  intro imps m b ic hm hmem
  cases hp : parseImpExts imps with
  | error e =>
      rw [show (splitImps imps).1 = none by simp [splitImps, hp]] at hm
      cases hm
  | ok impExts =>
      have hm2 : m = (splitImpsLoop (imps.zip impExts) ([], [])).1 := by
        rw [show (splitImps imps).1 =
            some (splitImpsLoop (imps.zip impExts) ([], [])).1 by simp [splitImps, hp]] at hm
        exact (Option.some.inj hm).symm
      subst hm2
      rcases splitImpsLoop_mem (imps.zip impExts) [] [] b ic hmem with habs | hex
      · simp [alookup] at habs
      · obtain ⟨imp, bexts, rp0, fpd, payload, raw, -, -, -, hmk, hic⟩ := hex
        obtain ⟨pj, fs, -, hraw, hb, hpre, -, hnone⟩ := mkBidderExt_some payload _ fpd raw hmk
        refine ⟨fs, ?_, ?_, hnone, ?_⟩
        · rw [hic, hraw]
        · rw [hb]
          rfl
        · intro bs hbs
          rcases hpre with ⟨-, hnone2⟩ | ⟨q, hq, hsome⟩
          · rw [hnone2] at hbs
            cases hbs
          · rw [hsome] at hbs
            have hq2 : q = Json.obj bs := Option.some.inj hbs
            subst hq2
            exact stripPrebid_obj_no_bidder rp0 bs hq

/-- Witness: the first component of the partition-exactness theorem at a
concrete call of `sanitizedImpCopy` whose membership hypothesis holds by
evaluation. -/
theorem splitImps_per_bidder_ext_exact_witness :
    ({ c2imp with ext := some (.valid (.obj [("bidder", Json.num 1)])) } : Imp) ∈
        ((alookup ([] : List (String × List Imp)) "x").getD []) ∨
      ∃ payload raw,
        ("x", payload) ∈ ([("x", RawMessage.valid (Json.num 1))] :
            List (String × RawMessage)) ∧
        "x" ≠ "prebid" ∧ "x" ≠ "context" ∧
        mkBidderExt payload (stripPrebid none).1 none = some raw ∧
        ({ c2imp with ext := some (.valid (.obj [("bidder", Json.num 1)])) } : Imp) =
          { c2imp with ext := some raw } :=
  splitImps_per_bidder_ext_exact.1 c2imp [("x", .valid (Json.num 1))] none none [] "x"
    { c2imp with ext := some (.valid (.obj [("bidder", Json.num 1)])) }
    (List.mem_singleton.mpr rfl)

/-- Counterexample to C1 as stated: for the worked example, the claim
says bidderA's copy has ext `{"bidder":{"p":1},"context":{"k":"v"}}`
with no other key, but the code's copy also carries the stripped
`"prebid"` block (an empty object). -/
theorem splitImps_claimed_example_ext_false :
    (splitImps [c1imp]).1 = some c1split ∧
    ¬ (∀ (m : List (String × List Imp)), (splitImps [c1imp]).1 = some m →
        ∀ ic, ic ∈ ((alookup m "bidderA").getD []) →
          ∃ fs, ic.ext = some (.valid (.obj fs)) ∧ alookup fs "bidder" = some c1pA ∧
            alookup fs "context" = some c1ctx ∧
            ∀ k, k ≠ "bidder" → k ≠ "context" → alookup fs k = none) := by
  constructor
  · rfl
  · intro hcl
    obtain ⟨fs, hext, -, -, hnone⟩ :=
      hcl c1split rfl { c1imp with ext := some (.valid (c1copyExt c1pA)) }
        (List.mem_singleton.mpr rfl)
    have h0 : some (RawMessage.valid (Json.obj
        [("bidder", c1pA), ("prebid", Json.obj []), ("context", c1ctx)])) =
        some (RawMessage.valid (Json.obj fs)) := hext
    have h1 : [("bidder", c1pA), ("prebid", Json.obj []), ("context", c1ctx)] = fs :=
      Json.obj.inj (RawMessage.valid.inj (Option.some.inj h0))
    have h2 := hnone "prebid" (by decide) (by decide)
    rw [h1.symm] at h2
    have h3 : alookup [("bidder", c1pA), ("prebid", Json.obj []), ("context", c1ctx)]
        "prebid" = some (Json.obj []) := rfl
    rw [h3] at h2
    cases h2

/-- C2: `splitImps` accumulates per-impression sanitization errors into
its local `errList` but returns `nil` at line 264, so its error-list
result is empty whenever the batch decode succeeds, even though
`sanitizedImpCopy` does report errors (second component: a direct call
whose prebid block re-marshal fails returns a marshal error and emits no
copy). -/
theorem splitImps_error_list_empty :
    (∀ (imps : List Imp) (exts : List (List (String × RawMessage))),
        parseImpExts imps = .ok exts → (splitImps imps).2 = []) ∧
    sanitizedImpCopy c2imp [("a", .valid (Json.num 1))] (some (.invalid "bad")) none [] =
      ([], [Err.marshalFailure]) := by
  constructor
  · intro imps exts h
    simp [splitImps, h]
  · rfl

/-- Witness: the error-discarding theorem applied at a concrete
impression list whose batch decode succeeds. -/
theorem splitImps_error_list_empty_witness :
    (splitImps [c7impGood]).2 = [] :=
  splitImps_error_list_empty.1 [c7impGood]
    [[("appnexus", RawMessage.valid (Json.obj [("placement", Json.num 7)]))]] rfl

/-- C7: a batch decode failure of some impression's extension aborts the
whole partition: `parseImpExts` fails exactly when the impression list
splits as decodable impressions, then one undecodable impression whose
position is the reported index, and `splitImps` then returns no map and
only that one typed error (later siblings are not examined: the reported
index is always the first failing one). -/
theorem parseImpExts_batch_failure :
    ∀ (imps : List Imp) (i : Nat),
      (parseImpExts imps = .error (Err.impExtDecode i) ↔
        ∃ pre imp post, imps = pre ++ imp :: post ∧ i = pre.length ∧
          decodeImpExt imp = none ∧ ∀ x ∈ pre, decodeImpExt x ≠ none) ∧
      (∀ e, parseImpExts imps = .error e → ∃ j, e = Err.impExtDecode j) ∧
      (∀ e, parseImpExts imps = .error e → splitImps imps = (none, [e])) := by
  intro imps i
  refine ⟨?_, ?_, ?_⟩
  · have h := parseImpExtsFrom_error_iff imps 0 i
    simpa [parseImpExts] using h
  · intro e h
    exact parseImpExtsFrom_error_shape imps 0 e h
  · intro e h
    simp [splitImps, h]

/-- Witness: the batch-failure theorem applied to a two-impression list
whose second extension does not decode. -/
theorem parseImpExts_batch_failure_witness :
    parseImpExts [c7impGood, c7impBad] = .error (Err.impExtDecode 1) ∧
    splitImps [c7impGood, c7impBad] = (none, [Err.impExtDecode 1]) := by
  have hiff := (parseImpExts_batch_failure [c7impGood, c7impBad] 1).1
  have herr : parseImpExts [c7impGood, c7impBad] = .error (Err.impExtDecode 1) :=
    hiff.mpr ⟨[c7impGood], c7impBad, [], rfl, rfl, rfl, by
      intro x hx
      rcases List.mem_singleton.1 hx with rfl
      intro habs
      cases habs⟩
  exact ⟨herr, (parseImpExts_batch_failure [c7impGood, c7impBad] 1).2.2 _ herr⟩

theorem decodeDigiField_shape (x : Option Json) (d : Option Json)
    (h : decodeDigiField x = some d) : d = none ∨ ∃ ds, d = some (Json.obj ds) := by
  rcases x with _ | j
  · cases h
    exact Or.inl rfl
  · rcases j with _ | b | n | s | es | fs <;> simp [decodeDigiField] at h
    · exact Or.inl h.symm
    · exact Or.inr ⟨fs, h.symm⟩

theorem decodeExtUser_digi_shape (j : Json) (e : ExtUser) (h : decodeExtUser j = some e) :
    e.digiTrust = none ∨ ∃ ds, e.digiTrust = some (Json.obj ds) := by
  rcases j with _ | b | n | s | es | fs <;> simp only [decodeExtUser] at h
  case null =>
      cases h
      exact Or.inl rfl
  case bool => cases h
  case num => cases h
  case str => cases h
  case arr => cases h
  case obj =>
      rcases hC : decodeConsentField (alookup (dedupKeys fs) "consent") with _ | c <;>
        rw [hC] at h
      · cases h
      rcases hD : decodeDigiField (alookup (dedupKeys fs) "digitrust") with _ | d <;>
        rw [hD] at h
      · cases h
      rcases hP : decodePrebidField (alookup (dedupKeys fs) "prebid") with _ | p <;>
        rw [hP] at h
      · cases h
      cases h
      exact decodeDigiField_shape _ d hD

theorem decodeExtUser_encode_stripped (c : String) (d : Option Json)
    (hd : d = none ∨ ∃ ds, d = some (Json.obj ds)) :
    decodeExtUser (encodeExtUser { consent := c, digiTrust := d, prebid := none }) =
      some { consent := c, digiTrust := d, prebid := none } := by
  rcases hd with rfl | ⟨ds, rfl⟩
  · by_cases hc : c = ""
    · subst hc
      rfl
    · have h1 : encodeExtUser { consent := c, digiTrust := none, prebid := none } =
          Json.obj [("consent", Json.str c)] := by
        simp [encodeExtUser, hc]
      rw [h1]
      rfl
  · by_cases hc : c = ""
    · subst hc
      rfl
    · have h1 : encodeExtUser ⟨c, some (Json.obj ds), none⟩ =
          Json.obj [("consent", Json.str c), ("digitrust", Json.obj ds)] := by
        simp [encodeExtUser, hc]
      rw [h1]
      rfl

/-- C3: when the user extension decodes and carries the prebid directive
with explicit buyer identifiers, `extractBuyerUIDs` returns that mapping
and removes the whole prebid directive from the shared user extension;
the consent string and digitrust block survive the rewrite (the stripped
extension decodes back to the same consent/digitrust with no prebid),
and when neither remains the extension is cleared to nothing. -/
theorem extractBuyerUIDs_strips_prebid :
    ∀ (u : User) (j : Json) (e : ExtUser) (pb : ExtUserPrebid)
      (uids : List (String × String)),
      u.ext = some (.valid j) →
      decodeExtUser j = some e →
      e.prebid = some pb →
      pb.buyerUIDs = some uids →
      ∃ u2, extractBuyerUIDs (some u) = .ok (some uids, some u2) ∧
        u2.id = u.id ∧ u2.buyerUID = u.buyerUID ∧
        ((e.consent ≠ "" ∨ e.digiTrust.isSome) →
          u2.ext = some (.valid (encodeExtUser { e with prebid := none })) ∧
          decodeExtUser (encodeExtUser { e with prebid := none }) =
            some { e with prebid := none }) ∧
        (e.consent = "" → e.digiTrust = none → u2.ext = none) := by
  intro u j e pb uids hext he hpb hb
  obtain ⟨uid, ubuy, uext⟩ := u
  simp only at hext
  subst hext
  by_cases hcond : e.consent ≠ "" ∨ e.digiTrust.isSome
  · refine ⟨⟨uid, ubuy, some (.valid (encodeExtUser { e with prebid := none }))⟩,
        ?_, rfl, rfl, ?_, ?_⟩
    · simp [extractBuyerUIDs, he, hpb, hb, hcond]
    · intro _
      refine ⟨rfl, ?_⟩
      have hshape := decodeExtUser_digi_shape j e he
      have := decodeExtUser_encode_stripped e.consent e.digiTrust hshape
      exact this
    · intro hc hd
      rcases hcond with h1 | h2
      · exact absurd hc h1
      · rw [hd] at h2
        cases h2
  · refine ⟨⟨uid, ubuy, none⟩, ?_, rfl, rfl, ?_, ?_⟩
    · simp [extractBuyerUIDs, he, hpb, hb, hcond]
    · intro habs
      exact absurd habs hcond
    · intro hc hd
      rfl

/-- Witness: `extractBuyerUIDs` applied to a concrete user whose
extension holds a consent string and an explicit buyer identifier. -/
theorem extractBuyerUIDs_strips_prebid_witness :
    ∃ u2, extractBuyerUIDs (some c3user) = .ok (some [("bidderA", "uid123")], some u2) ∧
      u2.id = c3user.id ∧ u2.buyerUID = c3user.buyerUID ∧
      (("yes" : String) ≠ "" ∨ (Option.none : Option Json).isSome →
        u2.ext = some (.valid (encodeExtUser ⟨"yes", none, none⟩)) ∧
        decodeExtUser (encodeExtUser ⟨"yes", none, none⟩) =
          some (⟨"yes", none, none⟩ : ExtUser)) ∧
      (("yes" : String) = "" → (Option.none : Option Json) = none → u2.ext = none) := by
  have h := extractBuyerUIDs_strips_prebid c3user c3userExt
    ⟨"yes", none, some ⟨some [("bidderA", "uid123")]⟩⟩
    ⟨some [("bidderA", "uid123")]⟩
    [("bidderA", "uid123")] rfl rfl rfl rfl
  exact h

/-- C4: buyer-identifier precedence in `prepareUser`: an explicit
identifier under the given (possibly aliased) name wins, otherwise a
synced identifier under the canonical name, otherwise the request is
untouched; the selected identifier is written through
`copyWithBuyerUID`, which clones and only fills an empty buyer
identifier, and the returned flag reports exactly whether a sync
existed, independent of which branch applied. -/
theorem prepareUser_precedence :
    ∀ (req : BidRequest) (givenBidder coreBidder : String)
      (explicitBuyerUIDs : List (String × String)) (usersyncs : String → Option String),
      (prepareUser req givenBidder coreBidder explicitBuyerUIDs usersyncs).2 =
        (usersyncs coreBidder).isSome ∧
      (∀ id, alookup explicitBuyerUIDs givenBidder = some id →
        (prepareUser req givenBidder coreBidder explicitBuyerUIDs usersyncs).1 =
          { req with user := some (copyWithBuyerUID req.user id) }) ∧
      (alookup explicitBuyerUIDs givenBidder = none →
        ∀ cid, usersyncs coreBidder = some cid →
          (prepareUser req givenBidder coreBidder explicitBuyerUIDs usersyncs).1 =
            { req with user := some (copyWithBuyerUID req.user cid) }) ∧
      (alookup explicitBuyerUIDs givenBidder = none → usersyncs coreBidder = none →
        (prepareUser req givenBidder coreBidder explicitBuyerUIDs usersyncs).1 = req) ∧
      (∀ u id, u.buyerUID = "" →
        copyWithBuyerUID (some u) id = { u with buyerUID := id }) ∧
      (∀ u id, u.buyerUID ≠ "" → copyWithBuyerUID (some u) id = u) ∧
      (∀ id, copyWithBuyerUID none id = { id := "", buyerUID := id, ext := none }) := by
  intro req givenBidder coreBidder explicitBuyerUIDs usersyncs
  refine ⟨?_, ?_, ?_, ?_, ?_, ?_, ?_⟩
  · cases he : alookup explicitBuyerUIDs givenBidder with
    | some id => simp [prepareUser, he]
    | none =>
        cases hs : usersyncs coreBidder with
        | some cid => simp [prepareUser, he, hs]
        | none => simp [prepareUser, he, hs]
  · intro id he
    simp [prepareUser, he]
  · intro he cid hs
    simp [prepareUser, he, hs]
  · intro he hs
    simp [prepareUser, he, hs]
  · intro u id h
    simp [copyWithBuyerUID, h]
  · intro u id h
    simp [copyWithBuyerUID, h]
  · intro id
    rfl

/-- Witness: precedence theorem applied where an explicit identifier and
a sync both exist; the explicit one is applied and the flag still
reports the sync. -/
theorem prepareUser_precedence_witness :
    (prepareUser c4req "alias" "core" [("alias", "explicitUID")]
        (fun _ => some "syncUID")).2 = (some "syncUID" : Option String).isSome ∧
    (prepareUser c4req "alias" "core" [("alias", "explicitUID")]
        (fun _ => some "syncUID")).1 =
      { c4req with user := some (copyWithBuyerUID c4req.user "explicitUID") } := by
  have h := prepareUser_precedence c4req "alias" "core" [("alias", "explicitUID")]
    (fun _ => some "syncUID")
  exact ⟨h.1, h.2.1 "explicitUID" rfl⟩

/-- C8: per-regime privacy enabled flags: the account-level override for
the caller's integration type wins whenever present, and the system-wide
default applies exactly when no override is present. -/
theorem privacyEnabled_override_precedence :
    ∀ (account : Account) (privacyConfig : Privacy) (it : IntegrationType),
      (∀ b, account.gdpr.enabledForIntegrationType it = some b →
        gdprEnabled account privacyConfig it = b) ∧
      (account.gdpr.enabledForIntegrationType it = none →
        gdprEnabled account privacyConfig it = privacyConfig.gdpr.enabled) ∧
      (∀ b, account.ccpa.enabledForIntegrationType it = some b →
        ccpaEnabled account privacyConfig it = b) ∧
      (account.ccpa.enabledForIntegrationType it = none →
        ccpaEnabled account privacyConfig it = privacyConfig.ccpa.enforce) := by
  intro account privacyConfig it
  refine ⟨?_, ?_, ?_, ?_⟩
  · intro b h
    simp [gdprEnabled, h]
  · intro h
    simp [gdprEnabled, h]
  · intro b h
    simp [ccpaEnabled, h]
  · intro h
    simp [ccpaEnabled, h]

/-- Witness: an account whose regional-consent override says false beats
a system default of true, while the opt-out regime without an override
falls back to its default. -/
theorem privacyEnabled_override_precedence_witness :
    gdprEnabled c8account c8privacy IntegrationType.web = false ∧
    ccpaEnabled c8account c8privacy IntegrationType.web = c8privacy.ccpa.enforce := by
  have h := privacyEnabled_override_precedence c8account c8privacy IntegrationType.web
  exact ⟨h.1 false rfl, h.2.2.2 rfl⟩

theorem makeBidsLoop_types (imps : List Imp) :
    ∀ (gbids : List GBid) (tb : TypedBid), tb ∈ (makeBidsLoop imps gbids).1 →
      getMediaTypeForImp tb.bid.impID imps = .ok tb.bidType := by
  intro gbids
  induction gbids with
  | nil =>
      intro tb h
      simp [makeBidsLoop] at h
  | cons b rest ih =>
      intro tb h
      cases hm : getMediaTypeForImp b.impID imps with
      | error e =>
          have hunf : makeBidsLoop imps (b :: rest) =
              ((makeBidsLoop imps rest).1, e :: (makeBidsLoop imps rest).2) := by
            simp [makeBidsLoop, hm]
          rw [hunf] at h
          exact ih tb h
      | ok t =>
          have hunf : makeBidsLoop imps (b :: rest) =
              ({ bid := b, bidType := t } :: (makeBidsLoop imps rest).1,
               (makeBidsLoop imps rest).2) := by
            simp [makeBidsLoop, hm]
          rw [hunf] at h
          rcases List.mem_cons.1 h with rfl | h2
          · exact hm
          · exact ih tb h2

theorem makeBidsSeatLoop_types (imps : List Imp) :
    ∀ (sbs : List SeatBid) (tb : TypedBid), tb ∈ (makeBidsSeatLoop imps sbs).1 →
      getMediaTypeForImp tb.bid.impID imps = .ok tb.bidType := by
  intro sbs
  induction sbs with
  | nil =>
      intro tb h
      simp [makeBidsSeatLoop] at h
  | cons sb rest ih =>
      intro tb h
      have hunf : makeBidsSeatLoop imps (sb :: rest) =
          ((makeBidsLoop imps sb.bid).1 ++ (makeBidsSeatLoop imps rest).1,
           (makeBidsLoop imps sb.bid).2 ++ (makeBidsSeatLoop imps rest).2) := by
        simp [makeBidsSeatLoop]
      rw [hunf] at h
      rcases List.mem_append.1 h with h1 | h2
      · exact makeBidsLoop_types imps sb.bid tb h1
      · exact ih tb h2

/-- C9: the generic adapter's response handling: 204 yields no bids and
no error; 400 yields no bids and a single client-input fault; any other
status besides 200 yields no bids and a single upstream-server fault;
and every typed bid returned from a 200 response carries the media type
derived from its matching impression. -/
theorem MakeBids_status_classes :
    ∀ (req : BidRequest) (resp : ResponseData),
      (resp.statusCode = 204 → MakeBids req resp = (none, [])) ∧
      (resp.statusCode = 400 →
        MakeBids req resp = (none, [AdapterErr.badInputStatus 400])) ∧
      (resp.statusCode ≠ 200 → resp.statusCode ≠ 204 → resp.statusCode ≠ 400 →
        MakeBids req resp = (none, [AdapterErr.badServerStatus resp.statusCode])) ∧
      (∀ br tb, (MakeBids req resp).1 = some br → tb ∈ br.bids →
        getMediaTypeForImp tb.bid.impID req.imp = .ok tb.bidType) := by
  intro req resp
  refine ⟨?_, ?_, ?_, ?_⟩
  · intro h
    simp [MakeBids, h]
  · intro h
    simp [MakeBids, h]
  · intro h200 h204 h400
    simp [MakeBids, h200, h204, h400]
  · intro br tb h1 h2
    by_cases h204 : resp.statusCode = 204
    · rw [show MakeBids req resp = (none, []) by simp [MakeBids, h204]] at h1
      cases h1
    by_cases h400 : resp.statusCode = 400
    · rw [show MakeBids req resp = (none, [AdapterErr.badInputStatus 400]) by
        simp [MakeBids, h400]] at h1
      cases h1
    by_cases h200 : resp.statusCode = 200
    · cases hb : resp.body with
      | none =>
          rw [show MakeBids req resp = (none, [AdapterErr.bodyUnmarshal]) by
            simp [MakeBids, h200, hb]] at h1
          cases h1
      | some bidResp =>
          have hunf : MakeBids req resp =
              (some { bids := (makeBidsSeatLoop req.imp bidResp.seatBid).1 },
               (makeBidsSeatLoop req.imp bidResp.seatBid).2) := by
            simp [MakeBids, h200, hb]
          rw [hunf] at h1
          have hbr : ({ bids := (makeBidsSeatLoop req.imp bidResp.seatBid).1 } :
              BidderResponse) = br := Option.some.inj h1
          rw [hbr.symm] at h2
          exact makeBidsSeatLoop_types req.imp bidResp.seatBid tb h2
    · rw [show MakeBids req resp = (none, [AdapterErr.badServerStatus resp.statusCode]) by
        simp [MakeBids, h200, h204, h400]] at h1
      cases h1

/-- Witness: the adapter theorem applied to a 400 response and to a 200
response carrying one banner bid. -/
theorem MakeBids_status_classes_witness :
    MakeBids c4req { statusCode := 400, body := none } =
      (none, [AdapterErr.badInputStatus 400]) ∧
    MakeBids c4req { statusCode := 503, body := none } =
      (none, [AdapterErr.badServerStatus 503]) ∧
    MakeBids c4req { statusCode := 204, body := none } = (none, []) ∧
    getMediaTypeForImp "i1" [(⟨"i1", none, some (), none⟩ : Imp)] =
      .ok BidType.video := by
  refine ⟨?_, ?_, ?_, ?_⟩
  · exact (MakeBids_status_classes c4req { statusCode := 400, body := none }).2.1 rfl
  · exact (MakeBids_status_classes c4req { statusCode := 503, body := none }).2.2.1
      (by decide) (by decide) (by decide)
  · exact (MakeBids_status_classes c4req { statusCode := 204, body := none }).1 rfl
  · exact (MakeBids_status_classes
      { c4req with imp := [(⟨"i1", none, some (), none⟩ : Imp)] }
      { statusCode := 200,
        body := some { seatBid := [{ bid := [{ id := "b1", impID := "i1" }] }] } }).2.2.2
      { bids := [{ bid := { id := "b1", impID := "i1" }, bidType := BidType.video }] }
      { bid := { id := "b1", impID := "i1" }, bidType := BidType.video }
      rfl (List.mem_singleton.mpr rfl)

/-- C10: the resolved cache instruction's returnCreative flag defaults
to true when neither section specifies it, equals the one specified
value when exactly one of `prebid.cache.bids` / `prebid.cache.vastxml`
specifies it, and is the OR of the two values when both do. -/
theorem getExtCacheInstructions_returnCreative_resolution :
    ∀ (requestExt : Option ExtRequest),
      (getExtCacheInstructions requestExt).returnCreative =
        match Option.bind (Option.bind (Option.bind requestExt
                (fun e => e.prebid.cache)) ExtRequestPrebidCache.bids)
              ExtRequestPrebidCacheBids.returnCreative,
              Option.bind (Option.bind (Option.bind requestExt
                (fun e => e.prebid.cache)) ExtRequestPrebidCache.vastXML)
              ExtRequestPrebidCacheVAST.returnCreative with
        | none, none => true
        | some b, none => b
        | none, some v => v
        | some b, some v => b || v := by
  intro re
  rcases re with _ | ⟨⟨schains, cache⟩⟩
  · rfl
  · rcases cache with _ | ⟨bids, vast⟩
    · rfl
    · rcases bids with _ | ⟨rcb⟩
      · rcases vast with _ | ⟨rcv⟩
        · rfl
        · rcases rcv with _ | bv <;> rfl
      · rcases vast with _ | ⟨rcv⟩
        · rcases rcb with _ | bb <;> rfl
        · rcases rcb with _ | bb <;> rcases rcv with _ | bv <;> rfl

theorem sChainBiddersLoop_ok (s : ExtRequestPrebidSChainSChain) :
    ∀ (bs : List String) (acc acc2 : List (String × ExtRequestPrebidSChainSChain)),
      sChainBiddersLoop s bs acc = .ok acc2 →
      bs.Nodup ∧ (∀ b ∈ bs, alookup acc b = none) ∧
      (∀ b, alookup acc2 b =
        match alookup acc b with
        | some c => some c
        | none => if b ∈ bs then some s else none) := by
  intro bs
  induction bs with
  | nil =>
      intro acc acc2 h
      cases h
      refine ⟨List.nodup_nil, by simp, ?_⟩
      intro b
      cases alookup acc b <;> simp
  | cons c0 rest ih =>
      intro acc acc2 h
      by_cases hc0 : (alookup acc c0).isSome
      · simp [sChainBiddersLoop, hc0] at h
      · have hc0n : alookup acc c0 = none := by
          cases hx : alookup acc c0 with
          | none => rfl
          | some v => rw [hx] at hc0; simp at hc0
        have h2 : sChainBiddersLoop s rest (acc ++ [(c0, s)]) = .ok acc2 := by
          simpa [sChainBiddersLoop, hc0] using h
        obtain ⟨hnd, hdisj, hform⟩ := ih (acc ++ [(c0, s)]) acc2 h2
        have happ : ∀ b, alookup (acc ++ [(c0, s)]) b =
            match alookup acc b with
            | some v => some v
            | none => if c0 = b then some s else none := by
          intro b
          rw [alookup_append]
          cases alookup acc b <;> simp [alookup]
        have hc0rest : c0 ∉ rest := by
          intro hmem
          have := hdisj c0 hmem
          rw [happ c0, hc0n] at this
          simp at this
        refine ⟨List.nodup_cons.mpr ⟨hc0rest, hnd⟩, ?_, ?_⟩
        · intro b hb
          rcases List.mem_cons.1 hb with rfl | hb2
          · exact hc0n
          · have := hdisj b hb2
            rw [happ b] at this
            cases hx : alookup acc b with
            | none => rfl
            | some v => rw [hx] at this; simp at this
        · intro b
          rw [hform b, happ b]
          cases hx : alookup acc b with
          | some v => simp
          | none =>
              simp only
              by_cases hb0 : c0 = b
              · subst hb0
                simp [hc0rest]
              · have hne : ¬ b = c0 := fun h => hb0 h.symm
                simp [hb0, List.mem_cons, hne]

theorem sChainBiddersLoop_error_shape (s : ExtRequestPrebidSChainSChain) :
    ∀ (bs : List String) (acc : List (String × ExtRequestPrebidSChainSChain)) (e : Err),
      sChainBiddersLoop s bs acc = .error e → ∃ b, e = Err.duplicateSChain b := by
  intro bs
  induction bs with
  | nil =>
      intro acc e h
      cases h
  | cons c0 rest ih =>
      intro acc e h
      by_cases hc0 : (alookup acc c0).isSome
      · simp only [sChainBiddersLoop, if_pos hc0] at h
        cases h
        exact ⟨c0, rfl⟩
      · simp only [sChainBiddersLoop, if_neg hc0] at h
        exact ih _ e h

theorem bidderToSChainsLoop_ok :
    ∀ (ws : List ExtRequestPrebidSChain)
      (acc m : List (String × ExtRequestPrebidSChainSChain)),
      bidderToSChainsLoop ws acc = .ok m →
      (flatBidders ws).Nodup ∧ (∀ b ∈ flatBidders ws, alookup acc b = none) ∧
      (∀ b, alookup m b =
        match alookup acc b with
        | some c => some c
        | none => wsLookup ws b) := by
  intro ws
  induction ws with
  | nil =>
      intro acc m h
      cases h
      refine ⟨List.nodup_nil, by simp [flatBidders], ?_⟩
      intro b
      cases alookup acc b <;> simp [wsLookup]
  | cons w rest ih =>
      intro acc m h
      cases hin : sChainBiddersLoop w.schain w.bidders acc with
      | error e => simp [bidderToSChainsLoop, hin] at h
      | ok acc2 =>
          have h2 : bidderToSChainsLoop rest acc2 = .ok m := by
            simpa [bidderToSChainsLoop, hin] using h
          obtain ⟨hnd1, hdisj1, hform1⟩ := sChainBiddersLoop_ok w.schain w.bidders acc acc2 hin
          obtain ⟨hnd2, hdisj2, hform2⟩ := ih acc2 m h2
          have hflat : flatBidders (w :: rest) = w.bidders ++ flatBidders rest := rfl
          have hdisjoint : w.bidders.Disjoint (flatBidders rest) := by
            intro b hb1 hb2
            have hacc2 := hdisj2 b hb2
            rw [hform1 b, hdisj1 b hb1] at hacc2
            simp [hb1] at hacc2
          refine ⟨?_, ?_, ?_⟩
          · rw [hflat]
            exact List.nodup_append.mpr ⟨hnd1, hnd2, hdisjoint⟩
          · intro b hb
            rw [hflat] at hb
            rcases List.mem_append.1 hb with hb1 | hb2
            · exact hdisj1 b hb1
            · have hacc2 := hdisj2 b hb2
              rw [hform1 b] at hacc2
              cases hx : alookup acc b with
              | none => rfl
              | some v => rw [hx] at hacc2; simp at hacc2
          · intro b
            rw [hform2 b, hform1 b]
            cases hx : alookup acc b with
            | some v => simp
            | none =>
                simp only
                by_cases hbw : b ∈ w.bidders
                · simp [wsLookup, hbw]
                · simp [wsLookup, hbw]

theorem bidderToSChainsLoop_error_shape :
    ∀ (ws : List ExtRequestPrebidSChain)
      (acc : List (String × ExtRequestPrebidSChainSChain)) (e : Err),
      bidderToSChainsLoop ws acc = .error e → ∃ b, e = Err.duplicateSChain b := by
  intro ws
  induction ws with
  | nil =>
      intro acc e h
      cases h
  | cons w rest ih =>
      intro acc e h
      cases hin : sChainBiddersLoop w.schain w.bidders acc with
      | error e2 =>
          have he : e2 = e := by
            simpa [bidderToSChainsLoop, hin] using h
          subst he
          exact sChainBiddersLoop_error_shape w.schain w.bidders acc e2 hin
      | ok acc2 =>
          have h2 : bidderToSChainsLoop rest acc2 = .error e := by
            simpa [bidderToSChainsLoop, hin] using h
          exact ih acc2 e h2

theorem flatBidders_append (xs ys : List ExtRequestPrebidSChain) :
    flatBidders (xs ++ ys) = flatBidders xs ++ flatBidders ys := by
  induction xs with
  | nil => simp [flatBidders]
  | cons w rest ih => simp [flatBidders, ih]

theorem flatBidders_perm {ws ws2 : List ExtRequestPrebidSChain} (h : ws.Perm ws2) :
    (flatBidders ws).Perm (flatBidders ws2) := by
  induction h with
  | nil => exact List.Perm.refl _
  | cons x h ih => exact ih.append_left x.bidders
  | swap x y l =>
      show (y.bidders ++ (x.bidders ++ flatBidders l)).Perm
        (x.bidders ++ (y.bidders ++ flatBidders l))
      rw [← List.append_assoc, ← List.append_assoc]
      exact List.perm_append_comm.append_right (flatBidders l)
  | trans h1 h2 ih1 ih2 => exact ih1.trans ih2

theorem mem_flatBidders :
    ∀ (ws : List ExtRequestPrebidSChain) (w : ExtRequestPrebidSChain) (b : String),
      w ∈ ws → b ∈ w.bidders → b ∈ flatBidders ws := by
  intro ws
  induction ws with
  | nil =>
      intro w b hw
      cases hw
  | cons w0 rest ih =>
      intro w b hw hb
      rcases List.mem_cons.1 hw with rfl | hw2
      · exact List.mem_append.2 (Or.inl hb)
      · exact List.mem_append.2 (Or.inr (ih w b hw2 hb))

theorem wsLookup_some_of_mem :
    ∀ (ws : List ExtRequestPrebidSChain) (w : ExtRequestPrebidSChain) (b : String),
      w ∈ ws → b ∈ w.bidders → (flatBidders ws).Nodup →
      wsLookup ws b = some w.schain := by
  intro ws
  induction ws with
  | nil =>
      intro w b hw
      cases hw
  | cons w0 rest ih =>
      intro w b hw hb hnd
      have hnd2 : (w0.bidders ++ flatBidders rest).Nodup := hnd
      rcases List.mem_cons.1 hw with rfl | hw2
      · simp [wsLookup, hb]
      · by_cases hb0 : b ∈ w0.bidders
        · exact absurd (mem_flatBidders rest w b hw2 hb)
            (List.disjoint_of_nodup_append hnd2 hb0)
        · rw [show wsLookup (w0 :: rest) b = wsLookup rest b by simp [wsLookup, hb0]]
          exact ih w b hw2 hb hnd2.of_append_right

theorem wsLookup_none_iff :
    ∀ (ws : List ExtRequestPrebidSChain) (b : String),
      wsLookup ws b = none ↔ ∀ w ∈ ws, b ∉ w.bidders := by
  intro ws
  induction ws with
  | nil =>
      intro b
      simp [wsLookup]
  | cons w0 rest ih =>
      intro b
      by_cases hb0 : b ∈ w0.bidders
      · simp [wsLookup, hb0]
      · rw [show wsLookup (w0 :: rest) b = wsLookup rest b by simp [wsLookup, hb0]]
        rw [ih b]
        constructor
        · intro h w hw
          rcases List.mem_cons.1 hw with rfl | hw2
          · exact hb0
          · exact h w hw2
        · intro h w hw
          exact h w (List.mem_cons_of_mem _ hw)

theorem wsLookup_some_inv :
    ∀ (ws : List ExtRequestPrebidSChain) (b : String) (c : ExtRequestPrebidSChainSChain),
      wsLookup ws b = some c → ∃ w, w ∈ ws ∧ b ∈ w.bidders ∧ w.schain = c := by
  intro ws
  induction ws with
  | nil =>
      intro b c h
      cases h
  | cons w0 rest ih =>
      intro b c h
      by_cases hb0 : b ∈ w0.bidders
      · rw [show wsLookup (w0 :: rest) b = some w0.schain by simp [wsLookup, hb0]] at h
        exact ⟨w0, List.mem_cons_self _ _, hb0, Option.some.inj h⟩
      · rw [show wsLookup (w0 :: rest) b = wsLookup rest b by simp [wsLookup, hb0]] at h
        obtain ⟨w, hw, hb, hc⟩ := ih b c h
        exact ⟨w, List.mem_cons_of_mem _ hw, hb, hc⟩

theorem wsLookup_perm {ws ws2 : List ExtRequestPrebidSChain} (h : ws.Perm ws2)
    (hnd : (flatBidders ws).Nodup) (b : String) : wsLookup ws b = wsLookup ws2 b := by
  have hnd2 : (flatBidders ws2).Nodup := (flatBidders_perm h).nodup hnd
  cases h1 : wsLookup ws b with
  | none =>
      rw [wsLookup_none_iff] at h1
      have h2 : wsLookup ws2 b = none := by
        rw [wsLookup_none_iff]
        intro w hw
        exact h1 w (h.mem_iff.mpr hw)
      rw [h2]
  | some c =>
      obtain ⟨w, hw, hb, hc⟩ := wsLookup_some_inv ws b c h1
      rw [wsLookup_some_of_mem ws2 w b (h.mem_iff.mp hw) hb hnd2, hc]

/-- C5: a bidder name declared in two supply-chain associations makes
`BidderToPrebidSChains` fail with a duplicate-chain error (and no map),
and `getAuctionBidderRequests` then produces no per-bidder requests,
returning exactly that error. -/
theorem duplicate_schain_rejected :
    ∀ (req : AuctionRequest) (ext : ExtRequest)
      (l1 l2 l3 : List ExtRequestPrebidSChain) (w1 w2 : ExtRequestPrebidSChain)
      (b : String),
      req.ext = some ext →
      ext.prebid.schains = l1 ++ w1 :: l2 ++ w2 :: l3 →
      b ∈ w1.bidders → b ∈ w2.bidders →
      (∃ b2, BidderToPrebidSChains req.ext = .error (Err.duplicateSChain b2)) ∧
      (∀ exts, parseImpExts req.bidRequest.imp = .ok exts →
        ∀ r, extractBuyerUIDs req.bidRequest.user = .ok r →
        ∀ e, BidderToPrebidSChains req.ext = .error e →
        getAuctionBidderRequests req = ([], [e])) := by
  intro req ext l1 l2 l3 w1 w2 b hext hdec hb1 hb2
  constructor
  · rw [hext]
    show ∃ b2, bidderToSChainsLoop ext.prebid.schains [] = .error (Err.duplicateSChain b2)
    cases hres : bidderToSChainsLoop ext.prebid.schains [] with
    | ok m =>
        exfalso
        have hnd := (bidderToSChainsLoop_ok ext.prebid.schains [] m hres).1
        rw [hdec, flatBidders_append] at hnd
        have hdisj := List.disjoint_of_nodup_append hnd
        exact hdisj
          (mem_flatBidders _ w1 b
            (List.mem_append.2 (Or.inr (List.mem_cons_self _ _))) hb1)
          (mem_flatBidders _ w2 b (List.mem_cons_self _ _) hb2)
    | error e =>
        obtain ⟨b2, he⟩ := bidderToSChainsLoop_error_shape ext.prebid.schains [] e hres
        subst he
        exact ⟨b2, rfl⟩
  · intro exts hparse r hbuy e herr
    obtain ⟨ruids, ruser⟩ := r
    have hsplit : splitImps req.bidRequest.imp =
        (some (splitImpsLoop (req.bidRequest.imp.zip exts) ([], [])).1, []) := by
      simp [splitImps, hparse]
    simp [getAuctionBidderRequests, hsplit, hbuy, herr]

/-- Witness: a request whose extension declares a wildcard-plus-bidderA
chain and a second bidderA chain is rejected end to end. -/
theorem duplicate_schain_rejected_witness :
    (∃ b2, BidderToPrebidSChains c5req.ext = .error (Err.duplicateSChain b2)) ∧
    getAuctionBidderRequests c5req = ([], [Err.duplicateSChain "bidderA"]) := by
  have h := duplicate_schain_rejected c5req c5ext [] [] []
    ⟨["*", "bidderA"], c5chainX⟩ ⟨["bidderA"], c5chainY⟩ "bidderA" rfl rfl
    (by decide) (by decide)
  exact ⟨h.1, h.2 [] rfl (none, some { id := "u", buyerUID := "", ext := none }) rfl
    (Err.duplicateSChain "bidderA") rfl⟩

/-- C6: supply-chain resolution for an outgoing request: the
bidder-specific chain is selected whenever the map has one, else the
wildcard chain, else the request (and in particular its source field) is
left completely untouched; a selected chain is serialized into the
source object's extension, all other request fields being preserved; and
the selection depends only on the built map's lookups, so two
declaration orders that both build successfully (necessarily without
duplicates) resolve identically for every bidder. -/
theorem prepareSource_resolution :
    (∀ (req : BidRequest) (bidder : String)
       (m : List (String × ExtRequestPrebidSChainSChain)) (c : ExtRequestPrebidSChainSChain),
       alookup m bidder = some c → prepareSource req bidder m = prepareSourceSet req c) ∧
    (∀ (req : BidRequest) (bidder : String)
       (m : List (String × ExtRequestPrebidSChainSChain)) (c : ExtRequestPrebidSChainSChain),
       alookup m bidder = none → alookup m "*" = some c →
       prepareSource req bidder m = prepareSourceSet req c) ∧
    (∀ (req : BidRequest) (bidder : String)
       (m : List (String × ExtRequestPrebidSChainSChain)),
       alookup m bidder = none → alookup m "*" = none →
       prepareSource req bidder m = req) ∧
    (∀ (req : BidRequest) (c : ExtRequestPrebidSChainSChain),
       (prepareSourceSet req c).source = some
         { (match req.source with
            | none => ({ tid := "", ext := none } : Source)
            | some s => s) with ext := some (marshalSChain c) } ∧
       (prepareSourceSet req c).imp = req.imp ∧
       (prepareSourceSet req c).user = req.user ∧
       (prepareSourceSet req c).app = req.app ∧
       (prepareSourceSet req c).test = req.test ∧
       (prepareSourceSet req c).ext = req.ext) ∧
    (∀ (req : BidRequest) (bidder : String) (ws ws2 : List ExtRequestPrebidSChain)
       (m m2 : List (String × ExtRequestPrebidSChainSChain)),
       ws.Perm ws2 →
       bidderToSChainsLoop ws [] = .ok m → bidderToSChainsLoop ws2 [] = .ok m2 →
       prepareSource req bidder m = prepareSource req bidder m2) := by
  refine ⟨?_, ?_, ?_, ?_, ?_⟩
  · intro req bidder m c h
    simp [prepareSource, h]
  · intro req bidder m c h1 h2
    simp [prepareSource, h1, h2]
  · intro req bidder m h1 h2
    simp [prepareSource, h1, h2]
  · intro req c
    exact ⟨rfl, rfl, rfl, rfl, rfl, rfl⟩
  · intro req bidder ws ws2 m m2 hperm h1 h2
    have hnd := (bidderToSChainsLoop_ok ws [] m h1).1
    have hf1 := (bidderToSChainsLoop_ok ws [] m h1).2.2
    have hf2 := (bidderToSChainsLoop_ok ws2 [] m2 h2).2.2
    have heq : ∀ b, alookup m b = alookup m2 b := by
      intro b
      have hh1 : alookup m b = wsLookup ws b := hf1 b
      have hh2 : alookup m2 b = wsLookup ws2 b := hf2 b
      rw [hh1, hh2]
      exact wsLookup_perm hperm hnd b
    simp only [prepareSource]
    rw [heq bidder, heq "*"]

/-- Witness: with a wildcard chain and a bidderA chain both present,
bidderA resolves to its own chain, another bidder resolves to the
wildcard chain, and an empty map leaves the request untouched. -/
theorem prepareSource_resolution_witness :
    prepareSource c4req "bidderA" c6map = prepareSourceSet c4req c5chainY ∧
    prepareSource c4req "bidderZ" c6map = prepareSourceSet c4req c5chainX ∧
    prepareSource c4req "bidderZ" [] = c4req := by
  refine ⟨prepareSource_resolution.1 c4req "bidderA" c6map c5chainY rfl,
    prepareSource_resolution.2.1 c4req "bidderZ" c6map c5chainX rfl rfl,
    prepareSource_resolution.2.2.1 c4req "bidderZ" [] rfl rfl⟩
